import Mathlib

/-!
Verification of the request/response codec and result-merging layer of the
log-query engine (`pkg/querier/queryrange/codec.go`).

The development shallowly embeds the Go source: the request/response variant
models, the request codec (route dispatch, encode, decode), and the response
merger (`Codec.MergeResponse`, `mergeLokiResponse`,
`mergeOrderedNonOverlappingStreams`, `LokiResponse.Count`).

Helpers living outside the provided source slice (`getOperation`, the
`loghttp` query parsers, `byDir`, `priorityqueue`, `stats.Result.MergeSplit`,
`series.Hash`, `indexStats.MergeStats`, `seriesvolume.Merge`) are modelled
from the specification; each such definition carries a doc comment starting
with `Modelled from the spec:`.

Machine integers are modelled as `Nat`/`Int` (`uint32` limits as `Nat`,
nanosecond timestamps as `Int`); Go string comparison is modelled as
lexicographic comparison of the character sequences.
-/
/-! ### Lexicographic order on strings (Go byte-wise string comparison) -/
/-- Strict lexicographic order on character lists, mirroring Go's built-in
`<` on strings (byte-wise lexicographic comparison). -/
def lexLt : List Char → List Char → Bool
  | [], [] => false
  | [], _ :: _ => true
  | _ :: _, [] => false
  | c :: cs, d :: ds => if c < d then true else if d < c then false else lexLt cs ds

/-- Go string `<`, modelled on the character sequence. -/
def strLt (a b : String) : Bool := lexLt a.data b.data

/-- Go string `<=` (`!(b < a)`), the order used by `sort.Strings`. -/
def strLe (a b : String) : Bool := !(strLt b a)

/-! ### Data model (`logproto` / `queryrange.pb.go` shapes used by
`codec.go`) -/
namespace logproto

/-- `logproto.Direction`: `FORWARD`/`BACKWARD`. -/
inductive Direction where
  | forward
  | backward
deriving DecidableEq

/-- `Direction.String()`. -/
def Direction.str : Direction → String
  | .forward => "FORWARD"
  | .backward => "BACKWARD"

/-- `logproto.Entry`: a timestamped log line. The timestamp is the
nanosecond Unix time (`Timestamp.UnixNano()`). -/
structure Entry where
  timestamp : Int
  line : String
deriving DecidableEq

/-- `logproto.Stream`: a label-set string together with its entries. -/
structure Stream where
  labels : String
  entries : List Entry
deriving DecidableEq

end logproto

open logproto

/-- Modelled from the spec: the query-statistics record — "a statistics
record accumulating counters (bytes processed, lines processed, queue time,
etc.) that is monotonically combinable by addition" (`stats.Result`). -/
structure StatsResult where
  bytesProcessed : Nat
  linesProcessed : Nat
  queueTime : Nat
deriving DecidableEq

/-- The zero statistics record (Go zero value of `stats.Result`). -/
def statsZero : StatsResult := ⟨0, 0, 0⟩

/-- Modelled from the spec: `stats.Result.MergeSplit` — "merged statistics
equal the field-wise sum of each input's statistics". -/
def StatsResult.mergeSplit (a b : StatsResult) : StatsResult :=
  ⟨a.bytesProcessed + b.bytesProcessed, a.linesProcessed + b.linesProcessed,
    a.queueTime + b.queueTime⟩

/-- Folding `MergeSplit` over a list of inputs, starting from the zero
record, exactly as the `mergedStats` accumulator in `Codec.MergeResponse`
and `mergeLokiResponse` does. -/
def statsSum (l : List StatsResult) : StatsResult :=
  l.foldl StatsResult.mergeSplit statsZero

/-- `queryrangebase.PrometheusResponseHeader` (name plus ordered values). -/
structure RespHeader where
  name : String
  values : List String
deriving DecidableEq

/-- `LokiData`: result type tag plus the stream list. -/
structure LokiData where
  resultType : String
  result : List Stream
deriving DecidableEq

/-- `LokiResponse` (the LogResponse variant). -/
structure LokiResponse where
  status : String
  data : LokiData
  errorType : String
  error : String
  direction : Direction
  limit : Nat
  version : Nat
  statistics : StatsResult
  headers : List RespHeader
deriving DecidableEq

/-- `LokiResponse.Count`: total number of entries across the result
streams. -/
def LokiResponse.Count (res : LokiResponse) : Nat :=
  (res.data.result.map (fun s => s.entries.length)).sum

/-- Total number of entries in a list of streams. -/
def totalEntries (l : List Stream) : Nat :=
  (l.map (fun s => s.entries.length)).sum

/-! ### Orders used by the merge -/
/-- Key order used by `mergeOrderedNonOverlappingStreams` on label-set keys:
`sort.Strings` ascending for FORWARD, reversed for BACKWARD. -/
def keyLe (direction : Direction) (a b : String) : Bool :=
  match direction with
  | .forward => strLe a b
  | .backward => strLe b a

/-- The key order as a relation. -/
def keyRel (direction : Direction) (a b : String) : Prop := keyLe direction a b = true

instance keyRel.decidable (direction : Direction) : DecidableRel (keyRel direction) :=
  fun a b => instDecidableEqBool (keyLe direction a b) true

/-- Modelled from the spec: the order on entries within one label-set group.
The merger returns each group's entries "concatenated in time order"
(min-heap by entry timestamp for FORWARD, max-heap for BACKWARD); equal
timestamps are disambiguated deterministically by the line text, which is a
modelling choice where the Go heap/`sort.Sort` order is unspecified. -/
def entryLe (direction : Direction) (e f : Entry) : Bool :=
  match direction with
  | .forward =>
    if e.timestamp < f.timestamp then true
    else if f.timestamp < e.timestamp then false
    else strLe e.line f.line
  | .backward =>
    if f.timestamp < e.timestamp then true
    else if e.timestamp < f.timestamp then false
    else strLe f.line e.line

/-- The entry order as a relation. -/
def entryRel (direction : Direction) (e f : Entry) : Prop := entryLe direction e f = true

instance entryRel.decidable (direction : Direction) : DecidableRel (entryRel direction) :=
  fun e f => instDecidableEqBool (entryLe direction e f) true

/-! ### The LogResponse merge (`mergeOrderedNonOverlappingStreams`) -/
/-- Modelled from the spec: `byDir.merge` — one label-set group's entry
blocks, one per input stream, are returned "concatenated in time order"
(each block is already sorted by the query direction and blocks for one
label-set do not overlap across shards), i.e. the group's entries sorted by
the direction's time order. -/
def byDirMerge (direction : Direction) (markers : List (List Entry)) : List Entry :=
  List.insertionSort (entryRel direction) markers.flatten

/-- The accumulation loop of `mergeOrderedNonOverlappingStreams`: gather the
streams of each response in order, but stop pulling further responses once
the running entry total has reached `limit` (`if total >= int(limit) {
break }`). -/
def collectStreams (limit : Nat) : Nat → List LokiResponse → List Stream
  | _, [] => []
  | total, resp :: rest =>
    resp.data.result ++
      (if limit ≤ total + resp.Count then []
       else collectStreams limit (total + resp.Count) rest)

/-- The marker lists of the `groups` map for one label-set key: the entry
blocks of every collected stream carrying that key, in collection order. -/
def groupMarkers (collected : List Stream) (k : String) : List (List Entry) :=
  (collected.filter (fun s => s.labels == k)).map (fun s => s.entries)

/-- The key set of the `groups` map. -/
def groupKeys (collected : List Stream) : List String :=
  (collected.map (fun s => s.labels)).dedup

/-- The sorted key list: `sort.Strings(keys)`, reversed for BACKWARD. -/
def sortedKeys (direction : Direction) (collected : List Stream) : List String :=
  List.insertionSort (keyRel direction) (groupKeys collected)

/-- Timestamp of a stream's first entry (`Entries[0].Timestamp.UnixNano()`
in `priorityqueue.Less`; streams on the queue are never empty). -/
def headTimestamp (s : Stream) : Int :=
  match s.entries with
  | [] => 0
  | e :: _ => e.timestamp

/-- Modelled from the spec: the priority order of the heap — "min-heap for
FORWARD, max-heap for BACKWARD" on the head-entry timestamp
(`priorityqueue.Less`). -/
def heapBetter (direction : Direction) (a b : Int) : Bool :=
  match direction with
  | .forward => decide (a < b)
  | .backward => decide (b < a)

/-- Pop one entry from the stream whose head entry is globally next
(`heap.Pop`): the popped stream keeps its label, loses its head entry, and
is dropped once empty. Ties between equal head timestamps go to the
earliest stream in queue order (a modelling choice where the Go heap's
internal order is unspecified). -/
def popBest (direction : Direction) : List Stream → Option (String × Entry × List Stream)
  | [] => none
  | s :: rest =>
    match popBest direction rest with
    | some (k, e, rest') =>
      if heapBetter direction e.timestamp (headTimestamp s) then some (k, e, s :: rest')
      else popHead s rest
    | none => popHead s rest
where
  /-- Remove the head entry of `s`, keeping the remainder on the queue. -/
  popHead (s : Stream) (rest : List Stream) : Option (String × Entry × List Stream) :=
    match s.entries with
    | [] => none
    | e :: es =>
      match es with
      | [] => some (s.labels, e, rest)
      | _ :: _ => some (s.labels, e, logproto.Stream.mk s.labels es :: rest)

/-- Append an entry to the `resultDict` bucket of its label-set
(`s.Entries = append(s.Entries, next.Entries...)`), creating the bucket on
first use. -/
def addBucket (acc : List (String × List Entry)) (k : String) (e : Entry) :
    List (String × List Entry) :=
  match acc with
  | [] => [(k, [e])]
  | (k', es) :: rest =>
    if k' = k then (k', es ++ [e]) :: rest else (k', es) :: addBucket rest k e

/-- The pop loop: `for i := 0; i < int(limit) && pq.Len() > 0; i++`. -/
def heapLoop (direction : Direction) :
    Nat → List Stream → List (String × List Entry) → List (String × List Entry)
  | 0, _, acc => acc
  | n + 1, pq, acc =>
    match popBest direction pq with
    | none => acc
    | some (k, e, pq') => heapLoop direction n pq' (addBucket acc k e)

/-- `resultDict` lookup. -/
def lookupBucket (acc : List (String × List Entry)) (k : String) : Option (List Entry) :=
  match acc with
  | [] => none
  | (k', es) :: rest => if k' = k then some es else lookupBucket rest k

/-- `mergeOrderedNonOverlappingStreams`: merge ordered, non-overlapping
responses by concatenating matching streams, then (when over the limit)
running them through a heap to pull out `limit` values. -/
def mergeOrderedNonOverlappingStreams (resps : List LokiResponse) (limit : Nat)
    (direction : Direction) : List Stream :=
  let collected := collectStreams limit 0 resps
  let keys := sortedKeys direction collected
  let total := totalEntries collected
  if total ≤ limit then
    keys.map (fun k => logproto.Stream.mk k (byDirMerge direction (groupMarkers collected k)))
  else
    let pq := keys.filterMap (fun k =>
      let entries := byDirMerge direction (groupMarkers collected k)
      if entries.isEmpty then none else some (logproto.Stream.mk k entries))
    let buckets := heapLoop direction limit pq []
    keys.filterMap (fun k => (lookupBucket buckets k).map (logproto.Stream.mk k))

/-- `mergeLokiResponse`: merge LogResponses; status is forced to
`loghttp.QueryStatusSuccess`, the scalar fields come from the first
response, statistics are accumulated with `MergeSplit`, and the stream
lists are merged with `mergeOrderedNonOverlappingStreams` using the first
response's limit and direction. Returns `none` on an empty input (`nil` in
the source). -/
def mergeLokiResponse : List LokiResponse → Option LokiResponse
  | [] => none
  | lokiRes :: rest =>
    some { status := "success"
           data := { resultType := "streams"
                     result := mergeOrderedNonOverlappingStreams (lokiRes :: rest)
                       lokiRes.limit lokiRes.direction }
           errorType := lokiRes.errorType
           error := lokiRes.error
           direction := lokiRes.direction
           limit := lokiRes.limit
           version := lokiRes.version
           statistics := statsSum ((lokiRes :: rest).map (fun r => r.statistics))
           headers := [] }

/-! ### The heap loop -/
/-- Streams on the priority queue are never empty. -/
def pqInv (pq : List Stream) : Prop := ∀ s ∈ pq, s.entries ≠ []

/-! ### Output ordering of the LogResponse merge -/
/-- Strict key order of the output: ascending label-set key for FORWARD,
descending for BACKWARD. -/
def keyLt (direction : Direction) (a b : String) : Bool :=
  match direction with
  | .forward => strLt a b
  | .backward => strLt b a

/-! ### The other response variants -/
/-- `logproto.SeriesIdentifier`: a label-name → label-value mapping. -/
structure SeriesIdentifier where
  labels : List (String × String)
deriving DecidableEq

/-- Lexicographic order on label pairs used to canonicalize a series
identifier. -/
def pairLe (p q : String × String) : Bool :=
  if strLt p.1 q.1 then true
  else if strLt q.1 p.1 then false
  else strLe p.2 q.2

/-- `pairLe` as a relation. -/
def pairRel (p q : String × String) : Prop := pairLe p q = true

instance pairRel.decidable : DecidableRel pairRel :=
  fun p q => instDecidableEqBool (pairLe p q) true

/-- Modelled from the spec: `series.Hash` — "identity for dedup purposes is
a hash over the canonical (sorted) label/value pairs"; the model uses the
canonical sorted pair list itself as the key (the spec accepts hash
collisions as a limitation; the model has none). -/
def SeriesIdentifier.hashKey (s : SeriesIdentifier) : List (String × String) :=
  List.insertionSort pairRel s.labels

/-- `LokiSeriesResponse`. -/
structure LokiSeriesResponse where
  status : String
  data : List SeriesIdentifier
  version : Nat
  statistics : StatsResult
  headers : List RespHeader
deriving DecidableEq

/-- `LokiLabelNamesResponse`. -/
structure LokiLabelNamesResponse where
  status : String
  data : List String
  version : Nat
  statistics : StatsResult
  headers : List RespHeader
deriving DecidableEq

/-- `queryrangebase.SampleStream` (labels plus numeric samples; sample
values are out of the merge contract, so the model keeps them opaque as
timestamp/value pairs with integer-scaled values). -/
structure SampleStream where
  labels : List (String × String)
  samples : List (Int × Int)
deriving DecidableEq

/-- `queryrangebase.PrometheusData`. -/
structure PrometheusData where
  resultType : String
  result : List SampleStream
deriving DecidableEq

/-- `queryrangebase.PrometheusResponse`. -/
structure PrometheusResponse where
  status : String
  data : PrometheusData
  errorType : String
  error : String
  headers : List RespHeader
deriving DecidableEq

/-- `LokiPromResponse`: a Prometheus-shaped response plus statistics. -/
structure LokiPromResponse where
  response : PrometheusResponse
  statistics : StatsResult
deriving DecidableEq

/-- `indexStats.Stats` / `IndexStatsResponse.Response`. -/
structure IndexStats where
  streams : Nat
  chunks : Nat
  bytes : Nat
  entries : Nat
deriving DecidableEq

/-- `IndexStatsResponse`. -/
structure IndexStatsResponse where
  response : IndexStats
  headers : List RespHeader
deriving DecidableEq

/-- One ranked volume entry (`logproto.Volume`). -/
structure Volume where
  name : String
  volume : Nat
deriving DecidableEq

/-- `logproto.VolumeResponse`: ranked volumes plus the top-N limit. -/
structure VolumeProtoResponse where
  volumes : List Volume
  limit : Nat
deriving DecidableEq

/-- `VolumeResponse` (the wrapper carrying headers). -/
structure VolumeResponse where
  response : VolumeProtoResponse
  headers : List RespHeader
deriving DecidableEq

/-- The Response Variant union handled by `Codec.MergeResponse` (the
zero-copy series view variants are a decode-time optimization and are not
modelled). -/
inductive Response where
  | prom (r : LokiPromResponse)
  | log (r : LokiResponse)
  | series (r : LokiSeriesResponse)
  | labels (r : LokiLabelNamesResponse)
  | indexStats (r : IndexStatsResponse)
  | volume (r : VolumeResponse)
deriving DecidableEq

/-- Modelled from the spec: the Prometheus sample-stream combiner that
`queryrangebase.PrometheusCodec.MergeResponse` delegates to —
"concatenation + statistics accumulation"; the result type of the combined
response is the matrix shape. -/
def promMergeResponse (responses : List PrometheusResponse) : PrometheusResponse :=
  { status := "success"
    data := { resultType := "matrix"
              result := (responses.map (fun r => r.data.result)).flatten }
    errorType := ""
    error := ""
    headers := [] }

/-- Modelled from the spec: `indexStats.MergeStats` — "sum/merge per-field
statistics (bytes, lines, chunks, streams) across all inputs". -/
def mergeIndexStats (l : List IndexStats) : IndexStats :=
  l.foldl (fun a b => ⟨a.streams + b.streams, a.chunks + b.chunks,
    a.bytes + b.bytes, a.entries + b.entries⟩) ⟨0, 0, 0, 0⟩

/-- Modelled from the spec: `seriesvolume.Merge` — "merge ranked volume
entries ... combining matching label-set volumes additively, then
re-truncating to top-N" (descending volume order). -/
def seriesvolumeMerge (resps : List VolumeProtoResponse) (limit : Nat) :
    VolumeProtoResponse :=
  let combined := (resps.map (fun r => r.volumes)).flatten
  let names := (combined.map (fun v => v.name)).dedup
  let totals := names.map (fun n =>
    Volume.mk n (((combined.filter (fun v => v.name == n)).map (fun v => v.volume)).sum))
  let ranked := List.insertionSort
    (fun a b => a.volume > b.volume ∨ (a.volume = b.volume ∧ strLe a.name b.name = true))
    totals
  ⟨ranked.take limit, limit⟩

instance : DecidableRel (fun (a b : Volume) =>
    a.volume > b.volume ∨ (a.volume = b.volume ∧ strLe a.name b.name = true)) :=
  fun _ _ => inferInstance

/-- The series-deduplication loop of `Codec.MergeResponse`: keep the first
occurrence of each hash key, walking responses and series in order. -/
def dedupSeries (seen : List (List (String × String))) :
    List SeriesIdentifier → List SeriesIdentifier
  | [] => []
  | s :: rest =>
    if s.hashKey ∈ seen then dedupSeries seen rest
    else s :: dedupSeries (s.hashKey :: seen) rest

/-- The label-name deduplication loop of `Codec.MergeResponse`. -/
def dedupNames (seen : List String) : List String → List String
  | [] => []
  | n :: rest =>
    if n ∈ seen then dedupNames seen rest
    else n :: dedupNames (n :: seen) rest

/-- The per-element Go type assertion `res.(*LokiPromResponse)` applied to
every input, as an explicit loop. -/
def castProm : List Response → Except String (List LokiPromResponse)
  | [] => .ok []
  | .prom p :: rest => (castProm rest).map (p :: ·)
  | _ :: _ => .error "unexpected response type in merging responses"

/-- The Go type assertion `res.(*LokiResponse)` applied to every input. -/
def castLog : List Response → Except String (List LokiResponse)
  | [] => .ok []
  | .log p :: rest => (castLog rest).map (p :: ·)
  | _ :: _ => .error "unexpected response type in merging responses"

/-- The Go type assertion `res.(*LokiSeriesResponse)` applied to every
input. -/
def castSeries : List Response → Except String (List LokiSeriesResponse)
  | [] => .ok []
  | .series p :: rest => (castSeries rest).map (p :: ·)
  | _ :: _ => .error "unexpected response type in merging responses"

/-- The Go type assertion `res.(*LokiLabelNamesResponse)` applied to every
input. -/
def castLabels : List Response → Except String (List LokiLabelNamesResponse)
  | [] => .ok []
  | .labels p :: rest => (castLabels rest).map (p :: ·)
  | _ :: _ => .error "unexpected response type in merging responses"

/-- The Go type assertion `res.(*IndexStatsResponse)` applied to every
input. -/
def castIndexStats : List Response → Except String (List IndexStatsResponse)
  | [] => .ok []
  | .indexStats p :: rest => (castIndexStats rest).map (p :: ·)
  | _ :: _ => .error "unexpected response type in merging responses"

/-- The Go type assertion `res.(*VolumeResponse)` applied to every input. -/
def castVolume : List Response → Except String (List VolumeResponse)
  | [] => .ok []
  | .volume p :: rest => (castVolume rest).map (p :: ·)
  | _ :: _ => .error "unexpected response type in merging responses"

/-- `Codec.MergeResponse`: type-dispatch on the first response; an empty
input is an error, and a non-homogeneous input fails the Go type assertion
(modelled as an error where Go would panic). -/
def mergeResponse : List Response → Except String Response
  | [] => .error "merging responses requires at least one response"
  | first :: rest =>
    match first with
    | .prom _ =>
      (castProm (first :: rest)).map (fun proms =>
        .prom { response := promMergeResponse (proms.map (fun p => p.response))
                statistics := statsSum (proms.map (fun p => p.statistics)) })
    | .log _ =>
      match castLog (first :: rest) with
      | .error e => .error e
      | .ok logs =>
        match mergeLokiResponse logs with
        | some m => .ok (.log m)
        | none => .error "merging responses requires at least one response"
    | .series firstSeries =>
      (castSeries (first :: rest)).map (fun resps =>
        .series { status := firstSeries.status
                  version := firstSeries.version
                  data := dedupSeries [] ((resps.map (fun p => p.data)).flatten)
                  statistics := statsSum (resps.map (fun p => p.statistics))
                  headers := [] })
    | .labels firstLabels =>
      (castLabels (first :: rest)).map (fun resps =>
        .labels { status := firstLabels.status
                  version := firstLabels.version
                  data := dedupNames [] ((resps.map (fun p => p.data)).flatten)
                  statistics := statsSum (resps.map (fun p => p.statistics))
                  headers := [] })
    | .indexStats firstStats =>
      (castIndexStats (first :: rest)).map (fun resps =>
        .indexStats { response := mergeIndexStats (resps.map (fun p => p.response))
                      headers := firstStats.headers })
    | .volume firstVolume =>
      (castVolume (first :: rest)).map (fun resps =>
        .volume { response := seriesvolumeMerge (resps.map (fun p => p.response))
                    firstVolume.response.limit
                  headers := firstVolume.headers })

/-! ### Decimal printing and parsing (the wire formats of numeric query
parameters) -/
/-- Digit value of a character, `none` for non-digits. -/
def charDigit (c : Char) : Option Nat :=
  if '0' ≤ c ∧ c ≤ '9' then some (c.toNat - '0'.toNat) else none

/-- Little-endian digit expansion with explicit fuel. -/
def natDigitsRev (fuel : Nat) (n : Nat) : List Nat :=
  match fuel with
  | 0 => []
  | fuel + 1 => if n = 0 then [] else n % 10 :: natDigitsRev fuel (n / 10)

/-- Little-endian digit recomposition. -/
def ofDigitsRev : List Nat → Nat
  | [] => 0
  | d :: ds => d + 10 * ofDigitsRev ds

/-- Decimal rendering of a natural (`fmt.Sprintf("%d", ·)`). -/
def printNat (n : Nat) : String :=
  if n = 0 then "0" else String.mk (((natDigitsRev n n).map Nat.digitChar).reverse)

/-- Decimal parsing of a natural. -/
def parseNat (s : String) : Option Nat :=
  if s.data ≠ [] ∧ s.data.all (fun c => (charDigit c).isSome) then
    some (ofDigitsRev (s.data.reverse.filterMap charDigit))
  else none

/-- Decimal rendering of an integer (`fmt.Sprintf("%d", ·)`). -/
def printInt (i : Int) : String :=
  if i < 0 then "-" ++ printNat i.natAbs else printNat i.natAbs

/-- Decimal parsing of an integer. -/
def parseInt (s : String) : Option Int :=
  if s.data.head? = some '-' then
    (parseNat (String.mk s.data.tail)).map (fun n => -(n : Int))
  else (parseNat s).map (fun n => (n : Int))

/-- Three-digit zero-padded rendering (used for the millisecond part of
fractional seconds). -/
def pad3 (n : Nat) : String :=
  String.mk [Nat.digitChar (n / 100 % 10), Nat.digitChar (n / 10 % 10),
    Nat.digitChar (n % 10)]

/-- `fmt.Sprintf("%f", float64(ms)/float64(1e3))`: fractional seconds with
six decimal places; stored milliseconds always render with a zero
microsecond tail. -/
def printSeconds (ms : Int) : String :=
  (if ms < 0 then "-" else "") ++ printNat (ms.natAbs / 1000) ++ "." ++
    pad3 (ms.natAbs % 1000) ++ "000"

/-- Split a character list at the first `'.'`; no dot means an empty
fractional part. -/
def splitAtDot : List Char → List Char × List Char
  | [] => ([], [])
  | c :: cs =>
    if c = '.' then ([], cs)
    else
      let p := splitAtDot cs
      (c :: p.1, p.2)

/-- Unsigned fractional-second body: whole-second digits, then an optional
dot and fraction digits, read to millisecond precision. -/
def parseSecondsCore (l : List Char) : Option Nat :=
  let p := splitAtDot l
  if p.1 ≠ [] ∧ p.1.all (fun c => (charDigit c).isSome) ∧
      p.2.all (fun c => (charDigit c).isSome) then
    some (ofDigitsRev (p.1.reverse.filterMap charDigit) * 1000 +
      ofDigitsRev (((p.2 ++ ['0', '0', '0']).take 3).reverse.filterMap charDigit))
  else none

/-- Modelled from the spec: the query-string duration parser for `step` /
`interval`, accepting the encoder's fractional-second rendering and
returning milliseconds (the external parser also accepts unit-suffixed
durations, which the encoder never emits). -/
def parseSeconds (s : String) : Option Int :=
  if s.data.head? = some '-' then
    (parseSecondsCore s.data.tail).map (fun n => -(n : Int))
  else (parseSecondsCore s.data).map (fun n => (n : Int))

/-! ### Request variants -/
/-- `LokiRequest` (range query). Times are nanosecond instants, step and
interval are milliseconds. -/
structure LokiRequest where
  Query : String
  Limit : Nat
  Step : Int
  Interval : Int
  StartTs : Int
  EndTs : Int
  Direction : Direction
  Path : String
  Shards : List String
deriving DecidableEq

/-- `LokiInstantRequest`. -/
structure LokiInstantRequest where
  Query : String
  Limit : Nat
  TimeTs : Int
  Direction : Direction
  Path : String
  Shards : List String
deriving DecidableEq

/-- `LokiSeriesRequest`. -/
structure LokiSeriesRequest where
  Match : List String
  StartTs : Int
  EndTs : Int
  Path : String
  Shards : List String
deriving DecidableEq

/-- `LabelRequest` (label names or label values). -/
structure LabelRequest where
  Start : Int
  End : Int
  Query : String
  Name : String
  Values : Bool
  path : String
deriving DecidableEq

/-- `logproto.IndexStatsRequest`; `From`/`Through` are millisecond
`model.Time` values. -/
structure IndexStatsRequest where
  From : Int
  Through : Int
  Matchers : String
deriving DecidableEq

/-- `logproto.VolumeRequest`; `Limit` is an `int32`, `Step` milliseconds. -/
structure VolumeRequest where
  From : Int
  Through : Int
  Matchers : String
  Limit : Int
  Step : Int
  TargetLabels : List String
  AggregateBy : String
deriving DecidableEq

/-- The Request Variant union. -/
inductive Request where
  | range (r : LokiRequest)
  | instant (r : LokiInstantRequest)
  | series (r : LokiSeriesRequest)
  | label (r : LabelRequest)
  | indexStats (r : IndexStatsRequest)
  | volume (r : VolumeRequest)
deriving DecidableEq

/-! ### Transport requests and routing -/
/-- An HTTP-shaped transport request: URL path plus parsed query
parameters (`r.Form`) and headers. Query-string serialization itself is an
external concern (§6 of the spec). -/
structure TransportRequest where
  path : String
  params : List (String × List String)
  headers : List (String × String)
deriving DecidableEq

/-- The RPC-wrapped HTTP request (`httpgrpc.HTTPRequest`); the URL's path
and parsed query parameters are carried separately. -/
structure HTTPGrpcRequest where
  url : String
  params : List (String × List String)
  headers : List (String × String)
deriving DecidableEq

/-- `r.Form.Get`-style lookup: all values of a query parameter. -/
def getParamValues (ps : List (String × List String)) (k : String) : List String :=
  match ps.find? (fun p => p.1 == k) with
  | none => []
  | some p => p.2

/-- First value of a query parameter, `none` when absent. -/
def getParam (ps : List (String × List String)) (k : String) : Option String :=
  (getParamValues ps k).head?

/-- An `httpgrpc.Errorf`-style error: status code plus message. -/
structure HTTPError where
  code : Nat
  msg : String
deriving DecidableEq

/-- The route table's operations. -/
inductive Op where
  | queryRangeOp
  | instantQueryOp
  | seriesOp
  | labelNamesOp
  | indexStatsOp
  | volumeOp
  | volumeRangeOp
  | unknownOp
deriving DecidableEq

/-- Strip a leading pattern from a character list. -/
def chopPre : List Char → List Char → Option (List Char)
  | [], l => some l
  | _ :: _, [] => none
  | p :: ps, c :: cs => if c = p then chopPre ps cs else none

/-- Extract `name` from a `/loki/api/v1/label/{name}/values` path (the
`labelNamesRoutes` regular expression). -/
def labelValuesName (path : String) : Option String :=
  match chopPre "/loki/api/v1/label/".data path.data with
  | none => none
  | some rest =>
    match chopPre "/values".data.reverse rest.reverse with
    | none => none
    | some midRev =>
      let mid := midRev.reverse
      if mid ≠ [] ∧ '/' ∉ mid then some (String.mk mid) else none

/-- Modelled from the spec: `getOperation` — "Dispatch key = URL path,
matched against a fixed route table {query_range, query (instant), series,
label names/values, index/stats, index/volume, index/volume_range}". -/
def getOperation (path : String) : Op :=
  if path = "/loki/api/v1/query_range" then .queryRangeOp
  else if path = "/loki/api/v1/query" then .instantQueryOp
  else if path = "/loki/api/v1/series" then .seriesOp
  else if path = "/loki/api/v1/label" ∨ path = "/loki/api/v1/labels" ∨
      (labelValuesName path).isSome then .labelNamesOp
  else if path = "/loki/api/v1/index/stats" then .indexStatsOp
  else if path = "/loki/api/v1/index/volume" then .volumeOp
  else if path = "/loki/api/v1/index/volume_range" then .volumeRangeOp
  else .unknownOp

/-! ### The query parsers (external `loghttp` package, modelled) -/
/-- Direction parsing. -/
def parseDirection (s : String) : Except String Direction :=
  if s = "FORWARD" then .ok .forward
  else if s = "BACKWARD" then .ok .backward
  else .error ("invalid direction: " ++ s)

/-- Required nanosecond-timestamp parameter. -/
def requireInt (ps : List (String × List String)) (k : String) : Except String Int :=
  match getParam ps k with
  | none => .error ("missing parameter: " ++ k)
  | some v =>
    match parseInt v with
    | none => .error ("invalid parameter " ++ k ++ ": " ++ v)
    | some i => .ok i

/-- Optional natural-number parameter with default. -/
def optNat (ps : List (String × List String)) (k : String) (dflt : Nat) :
    Except String Nat :=
  match getParam ps k with
  | none => .ok dflt
  | some v =>
    match parseNat v with
    | none => .error ("invalid parameter " ++ k ++ ": " ++ v)
    | some n => .ok n

/-- Optional integer parameter with default. -/
def optInt (ps : List (String × List String)) (k : String) (dflt : Int) :
    Except String Int :=
  match getParam ps k with
  | none => .ok dflt
  | some v =>
    match parseInt v with
    | none => .error ("invalid parameter " ++ k ++ ": " ++ v)
    | some i => .ok i

/-- Optional direction parameter with default. -/
def optDirection (ps : List (String × List String)) (k : String) (dflt : Direction) :
    Except String Direction :=
  match getParam ps k with
  | none => .ok dflt
  | some v => parseDirection v

/-- Optional duration parameter (fractional seconds → milliseconds) with
default. -/
def optSeconds (ps : List (String × List String)) (k : String) (dflt : Int) :
    Except String Int :=
  match getParam ps k with
  | none => .ok dflt
  | some v =>
    match parseSeconds v with
    | none => .error ("invalid parameter " ++ k ++ ": " ++ v)
    | some ms => .ok ms

/-- Modelled from the spec: the default range-query step (milliseconds)
derived from the time range when no `step` parameter is given. -/
def defaultStepMs (startNs endNs : Int) : Int :=
  max 1 ((endNs - startNs) / 1000000000 / 250) * 1000

/-- Split a comma-separated value list. -/
def splitCommaChars : List Char → List (List Char)
  | [] => [[]]
  | c :: cs =>
    let rest := splitCommaChars cs
    if c = ',' then [] :: rest
    else
      match rest with
      | [] => [[c]]
      | h :: t => (c :: h) :: t

/-- Split a comma-separated string. -/
def splitComma (s : String) : List String :=
  (splitCommaChars s.data).map String.mk

/-- Parsed range query (`loghttp.RangeQuery`). -/
structure RangeQuery where
  Start : Int
  End : Int
  Step : Int
  Interval : Int
  Query : String
  Direction : Direction
  Limit : Nat
  Shards : List String
deriving DecidableEq

/-- The `step` parameter: absent means the range-derived default. -/
def optStep (ps : List (String × List String)) (startNs endNs : Int) :
    Except String Int :=
  match getParam ps "step" with
  | none => .ok (defaultStepMs startNs endNs)
  | some v =>
    match parseSeconds v with
    | none => .error ("invalid parameter step: " ++ v)
    | some ms => .ok ms

/-- Modelled from the spec: `loghttp.ParseRangeQuery`. Required time bounds
(the external parser substitutes wall-clock defaults, which are outside the
model), defaulted limit/direction, duration-valued step/interval. -/
def parseRangeQuery (r : TransportRequest) : Except String RangeQuery :=
  match requireInt r.params "start" with
  | .error e => .error e
  | .ok start =>
    match requireInt r.params "end" with
    | .error e => .error e
    | .ok endTs =>
      match optNat r.params "limit" 100 with
      | .error e => .error e
      | .ok limit =>
        match optDirection r.params "direction" .backward with
        | .error e => .error e
        | .ok direction =>
          match optStep r.params start endTs with
          | .error e => .error e
          | .ok step =>
            match optSeconds r.params "interval" 0 with
            | .error e => .error e
            | .ok interval => .ok
                { Start := start, End := endTs, Step := step, Interval := interval,
                  Query := (getParam r.params "query").getD "",
                  Direction := direction, Limit := limit,
                  Shards := getParamValues r.params "shards" }

/-- Parsed instant query (`loghttp.InstantQuery`). -/
structure InstantQuery where
  Ts : Int
  Query : String
  Direction : Direction
  Limit : Nat
  Shards : List String
deriving DecidableEq

/-- Modelled from the spec: `loghttp.ParseInstantQuery`. -/
def parseInstantQuery (r : TransportRequest) : Except String InstantQuery :=
  match requireInt r.params "time" with
  | .error e => .error e
  | .ok ts =>
    match optNat r.params "limit" 100 with
    | .error e => .error e
    | .ok limit =>
      match optDirection r.params "direction" .backward with
      | .error e => .error e
      | .ok direction => .ok
          { Ts := ts, Query := (getParam r.params "query").getD "",
            Direction := direction, Limit := limit,
            Shards := getParamValues r.params "shards" }

/-- Parsed series query (`loghttp.ParseAndValidateSeriesQuery`). -/
structure SeriesQuery where
  Start : Int
  End : Int
  Groups : List String
  Shards : List String
deriving DecidableEq

/-- Modelled from the spec: `loghttp.ParseAndValidateSeriesQuery` (matcher
validation of the `match[]` groups is outside the model). -/
def parseSeriesQuery (r : TransportRequest) : Except String SeriesQuery :=
  match requireInt r.params "start" with
  | .error e => .error e
  | .ok start =>
    match requireInt r.params "end" with
    | .error e => .error e
    | .ok endTs => .ok
        { Start := start, End := endTs,
          Groups := getParamValues r.params "match[]",
          Shards := getParamValues r.params "shards" }

/-- Parsed label query (`logproto.LabelRequest`). -/
structure LabelQuery where
  Start : Int
  End : Int
  Query : String
  Name : String
  Values : Bool
deriving DecidableEq

/-- Modelled from the spec: `loghttp.ParseLabelQuery`; the label name and
the values flag come from the `/label/{name}/values` route shape. -/
def parseLabelQuery (r : TransportRequest) : Except String LabelQuery :=
  match requireInt r.params "start" with
  | .error e => .error e
  | .ok start =>
    match requireInt r.params "end" with
    | .error e => .error e
    | .ok endTs => .ok
        { Start := start, End := endTs,
          Query := (getParam r.params "query").getD "",
          Name := (labelValuesName r.path).getD "",
          Values := (labelValuesName r.path).isSome }

/-- Parsed index-stats query. -/
structure IndexStatsQuery where
  Start : Int
  End : Int
  Query : String
deriving DecidableEq

/-- Modelled from the spec: `loghttp.ParseIndexStatsQuery`. -/
def parseIndexStatsQuery (r : TransportRequest) : Except String IndexStatsQuery :=
  match requireInt r.params "start" with
  | .error e => .error e
  | .ok start =>
    match requireInt r.params "end" with
    | .error e => .error e
    | .ok endTs => .ok
        { Start := start, End := endTs, Query := (getParam r.params "query").getD "" }

/-- Parsed volume query. -/
structure VolumeQuery where
  Start : Int
  End : Int
  Query : String
  Limit : Int
  Step : Int
  TargetLabels : List String
  AggregateBy : String
deriving DecidableEq

/-- Modelled from the spec: `loghttp.ParseVolumeInstantQuery` — the
`aggregateBy` default is the series aggregation, `targetLabels` is a
comma-separated list. -/
def parseVolumeInstantQuery (r : TransportRequest) : Except String VolumeQuery :=
  match requireInt r.params "start" with
  | .error e => .error e
  | .ok start =>
    match requireInt r.params "end" with
    | .error e => .error e
    | .ok endTs =>
      match optInt r.params "limit" 100 with
      | .error e => .error e
      | .ok limit => .ok
          { Start := start, End := endTs,
            Query := (getParam r.params "query").getD "",
            Limit := limit, Step := 0,
            TargetLabels := match getParam r.params "targetLabels" with
              | none => []
              | some v => splitComma v,
            AggregateBy := match getParam r.params "aggregateBy" with
              | none => "series"
              | some v => if v = "" then "series" else v }

/-- Modelled from the spec: `loghttp.ParseVolumeRangeQuery` (the instant
parser plus a stepped range). -/
def parseVolumeRangeQuery (r : TransportRequest) : Except String VolumeQuery :=
  match parseVolumeInstantQuery r with
  | .error e => .error e
  | .ok q =>
    match optStep r.params q.Start q.End with
    | .error e => .error e
    | .ok step => .ok { q with Step := step }

/-- Modelled from the spec: `util.RoundToMilliseconds` — start rounded down
to milliseconds, exclusive end rounded up (Go truncating division). -/
def roundToMsDown (ns : Int) : Int := Int.tdiv ns 1000000

/-- End-of-range rounding of `util.RoundToMilliseconds`. -/
def roundToMsUp (ns : Int) : Int :=
  Int.tdiv ns 1000000 + (if Int.tmod ns 1000000 ≠ 0 then 1 else 0)

/-- `int32(...)`: two's-complement truncation of a Go `int` to `int32`. -/
def toInt32 (i : Int) : Int := (i + 2 ^ 31) % 2 ^ 32 - 2 ^ 31

/-- `Codec.DecodeRequest`: route on the URL path; parse failures are
`BadRequest` (400), unknown paths are `NotFound` (404). -/
def decodeRequest (r : TransportRequest) : Except HTTPError Request :=
  match getOperation r.path with
  | .queryRangeOp =>
    match parseRangeQuery r with
    | .error e => .error ⟨400, e⟩
    | .ok q => .ok (.range
        { Query := q.Query, Limit := q.Limit, Direction := q.Direction,
          StartTs := q.Start, EndTs := q.End, Step := q.Step,
          Interval := q.Interval, Path := r.path, Shards := q.Shards })
  | .instantQueryOp =>
    match parseInstantQuery r with
    | .error e => .error ⟨400, e⟩
    | .ok q => .ok (.instant
        { Query := q.Query, Limit := q.Limit, Direction := q.Direction,
          TimeTs := q.Ts, Path := r.path, Shards := q.Shards })
  | .seriesOp =>
    match parseSeriesQuery r with
    | .error e => .error ⟨400, e⟩
    | .ok q => .ok (.series
        { Match := q.Groups, StartTs := q.Start, EndTs := q.End,
          Path := r.path, Shards := q.Shards })
  | .labelNamesOp =>
    match parseLabelQuery r with
    | .error e => .error ⟨400, e⟩
    | .ok q => .ok (.label
        { Start := q.Start, End := q.End, Query := q.Query, Name := q.Name,
          Values := q.Values, path := r.path })
  | .indexStatsOp =>
    match parseIndexStatsQuery r with
    | .error e => .error ⟨400, e⟩
    | .ok q => .ok (.indexStats
        { From := roundToMsDown q.Start, Through := roundToMsUp q.End,
          Matchers := q.Query })
  | .volumeOp =>
    match parseVolumeInstantQuery r with
    | .error e => .error ⟨400, e⟩
    | .ok q => .ok (.volume
        { From := roundToMsDown q.Start, Through := roundToMsUp q.End,
          Matchers := q.Query, Limit := toInt32 q.Limit, Step := 0,
          TargetLabels := q.TargetLabels, AggregateBy := q.AggregateBy })
  | .volumeRangeOp =>
    match parseVolumeRangeQuery r with
    | .error e => .error ⟨400, e⟩
    | .ok q => .ok (.volume
        { From := roundToMsDown q.Start, Through := roundToMsUp q.End,
          Matchers := q.Query, Limit := toInt32 q.Limit, Step := q.Step,
          TargetLabels := q.TargetLabels, AggregateBy := q.AggregateBy })
  | .unknownOp => .error ⟨404, "unknown request path: " ++ r.path⟩

/-- The request-scoped metadata bag read by the codec boundary (org id,
query tags, encoding flags, actor path, serialized query limits). -/
structure Ctx where
  orgID : Option String
  queryTags : String
  encodingFlags : String
  actorPath : String
  queryLimits : Option String
deriving DecidableEq

/-- Header block attached by `Codec.EncodeRequest` from the context. -/
def encodeHeaders (ctx : Ctx) (orgID : String) : List (String × String) :=
  (if ctx.queryTags ≠ "" then [("X-Query-Tags", ctx.queryTags)] else []) ++
    (if ctx.encodingFlags ≠ "" then [("X-Loki-Response-Encoding-Flags", ctx.encodingFlags)]
     else []) ++
    (if ctx.actorPath ≠ "" then [("X-Loki-Actor-Path", ctx.actorPath)] else []) ++
    (match ctx.queryLimits with
     | none => []
     | some l => [("X-Loki-Query-Limits", l)]) ++
    [("X-Scope-OrgID", orgID)]

/-- `Codec.EncodeRequest`: requires a resolvable org id in the context and
rebuilds a fixed path plus query parameters per variant (times as
nanosecond integers, step/interval as fractional seconds, repeated
`shards`). -/
def encodeRequest (ctx : Ctx) (r : Request) : Except HTTPError TransportRequest :=
  match ctx.orgID with
  | none => .error ⟨401, "no org id"⟩
  | some org =>
    let header := encodeHeaders ctx org
    match r with
    | .range request => .ok
        { path := "/loki/api/v1/query_range"
          params :=
            [("start", [printInt request.StartTs]),
             ("end", [printInt request.EndTs]),
             ("query", [request.Query]),
             ("direction", [request.Direction.str]),
             ("limit", [printNat request.Limit])] ++
            (if request.Shards ≠ [] then [("shards", request.Shards)] else []) ++
            (if request.Step ≠ 0 then [("step", [printSeconds request.Step])] else []) ++
            (if request.Interval ≠ 0 then [("interval", [printSeconds request.Interval])]
             else [])
          headers := header }
    | .series request => .ok
        { path := "/loki/api/v1/series"
          params :=
            [("start", [printInt request.StartTs]),
             ("end", [printInt request.EndTs]),
             ("match[]", request.Match)] ++
            (if request.Shards ≠ [] then [("shards", request.Shards)] else [])
          headers := header }
    | .label request => .ok
        { path := request.path
          params :=
            [("start", [printInt request.Start]),
             ("end", [printInt request.End]),
             ("query", [request.Query])]
          headers := header }
    | .instant request => .ok
        { path := "/loki/api/v1/query"
          params :=
            [("query", [request.Query]),
             ("direction", [request.Direction.str]),
             ("limit", [printNat request.Limit]),
             ("time", [printInt request.TimeTs])] ++
            (if request.Shards ≠ [] then [("shards", request.Shards)] else [])
          headers := header }
    | .indexStats request => .ok
        { path := "/loki/api/v1/index/stats"
          params :=
            [("start", [printInt (request.From * 1000000)]),
             ("end", [printInt (request.Through * 1000000)]),
             ("query", [request.Matchers])]
          headers := header }
    | .volume request => .ok
        { path := if request.Step ≠ 0 then "/loki/api/v1/index/volume_range"
                  else "/loki/api/v1/index/volume"
          params :=
            [("start", [printInt (request.From * 1000000)]),
             ("end", [printInt (request.Through * 1000000)]),
             ("query", [request.Matchers]),
             ("limit", [printInt request.Limit]),
             ("aggregateBy", [request.AggregateBy])] ++
            (if request.TargetLabels ≠ [] then
              [("targetLabels", [String.intercalate "," request.TargetLabels])] else []) ++
            (if request.Step ≠ 0 then [("step", [printSeconds request.Step])] else [])
          headers := header }

/-- `Codec.DecodeHTTPGrpcRequest`: resolve the org id from the context or,
failing that, from the request headers; enrich the context with query tags,
queue time and encoding flags; then route exactly as the plain decode —
except that the unknown-path fallthrough answers `BadRequest` (400), not
`NotFound`. -/
def decodeHTTPGrpcRequest (ctx : Ctx) (r : HTTPGrpcRequest) :
    Except HTTPError (Request × Ctx) :=
  let orgID : Option String := match ctx.orgID with
    | some o => some o
    | none => (r.headers.find? (fun p : String × String => p.1 == "X-Scope-OrgID")).map
        Prod.snd
  match orgID with
  | none => .error ⟨401, "no org id"⟩
  | some org =>
    let qt : String :=
      match r.headers.find? (fun p : String × String => p.1 == "X-Query-Tags") with
      | some p => p.2
      | none => ctx.queryTags
    let ctx' := { ctx with orgID := some org, queryTags := qt }
    let httpReq : TransportRequest := ⟨r.url, r.params, r.headers⟩
    match getOperation r.url with
    | .queryRangeOp =>
      match parseRangeQuery httpReq with
      | .error e => .error ⟨400, e⟩
      | .ok q => .ok (.range
          { Query := q.Query, Limit := q.Limit, Direction := q.Direction,
            StartTs := q.Start, EndTs := q.End, Step := q.Step,
            Interval := q.Interval, Path := r.url, Shards := q.Shards }, ctx')
    | .instantQueryOp =>
      match parseInstantQuery httpReq with
      | .error e => .error ⟨400, e⟩
      | .ok q => .ok (.instant
          { Query := q.Query, Limit := q.Limit, Direction := q.Direction,
            TimeTs := q.Ts, Path := r.url, Shards := q.Shards }, ctx')
    | .seriesOp =>
      match parseSeriesQuery httpReq with
      | .error e => .error ⟨400, e⟩
      | .ok q => .ok (.series
          { Match := q.Groups, StartTs := q.Start, EndTs := q.End,
            Path := r.url, Shards := q.Shards }, ctx')
    | .labelNamesOp =>
      match parseLabelQuery httpReq with
      | .error e => .error ⟨400, e⟩
      | .ok q => .ok (.label
          { Start := q.Start, End := q.End, Query := q.Query, Name := q.Name,
            Values := q.Values, path := r.url }, ctx')
    | .indexStatsOp =>
      match parseIndexStatsQuery httpReq with
      | .error e => .error ⟨400, e⟩
      | .ok q => .ok (.indexStats
          { From := roundToMsDown q.Start, Through := roundToMsUp q.End,
            Matchers := q.Query }, ctx')
    | .volumeOp =>
      match parseVolumeInstantQuery httpReq with
      | .error e => .error ⟨400, e⟩
      | .ok q => .ok (.volume
          { From := roundToMsDown q.Start, Through := roundToMsUp q.End,
            Matchers := q.Query, Limit := toInt32 q.Limit, Step := 0,
            TargetLabels := q.TargetLabels, AggregateBy := q.AggregateBy }, ctx')
    | .volumeRangeOp =>
      match parseVolumeRangeQuery httpReq with
      | .error e => .error ⟨400, e⟩
      | .ok q => .ok (.volume
          { From := roundToMsDown q.Start, Through := roundToMsUp q.End,
            Matchers := q.Query, Limit := toInt32 q.Limit, Step := q.Step,
            TargetLabels := q.TargetLabels, AggregateBy := q.AggregateBy }, ctx')
    | .unknownOp => .error ⟨400, "unknown request path: " ++ r.url⟩

/-- The variant tag of a request. -/
inductive ReqKind where
  | range
  | instant
  | series
  | label
  | indexStats
  | volume
deriving DecidableEq

/-- Tag of a Request Variant. -/
def Request.kind : Request → ReqKind
  | .range _ => .range
  | .instant _ => .instant
  | .series _ => .series
  | .label _ => .label
  | .indexStats _ => .indexStats
  | .volume _ => .volume

/-- The semantically meaningful fields of a Request Variant: query text,
time bounds, limit, direction, shards (plus series matchers). Fields a
variant lacks take fixed defaults. -/
structure SemFields where
  query : String
  start : Int
  stop : Int
  limit : Int
  direction : Option Direction
  shards : List String
  matchers : List String
deriving DecidableEq

/-- Extract the semantic fields of each variant. -/
def Request.semFields : Request → SemFields
  | .range r => ⟨r.Query, r.StartTs, r.EndTs, r.Limit, some r.Direction, r.Shards, []⟩
  | .instant r => ⟨r.Query, r.TimeTs, r.TimeTs, r.Limit, some r.Direction, r.Shards, []⟩
  | .series r => ⟨"", r.StartTs, r.EndTs, 0, none, r.Shards, r.Match⟩
  | .label r => ⟨r.Query, r.Start, r.End, 0, none, [], []⟩
  | .indexStats r => ⟨r.Matchers, r.From, r.Through, 0, none, [], []⟩
  | .volume r => ⟨r.Matchers, r.From, r.Through, r.Limit, none, [], []⟩

/-- Representability side conditions of a request: a volume limit must fit
its `int32` wire field, and a label request's forwarded path must be a
label route. -/
def roundTripSafe : Request → Prop
  | .volume v => -(2 ^ 31) ≤ v.Limit ∧ v.Limit < 2 ^ 31
  | .label l => getOperation l.path = .labelNamesOp
  | _ => True

/-- The statistics record carried by a Response Variant (`none` for the
kinds without one). -/
def statsOf : Response → Option StatsResult
  | .prom r => some r.statistics
  | .log r => some r.statistics
  | .series r => some r.statistics
  | .labels r => some r.statistics
  | .indexStats _ => none
  | .volume _ => none

/-! ### Theorems -/

theorem lexLt_irrefl : ∀ l : List Char, lexLt l l = false
  | [] => rfl
  | c :: cs => by simp [lexLt, lexLt_irrefl cs]

theorem lexLt_asymm : ∀ l₁ l₂ : List Char, lexLt l₁ l₂ = true → lexLt l₂ l₁ = false
  | [], [], h => by simp [lexLt] at h
  | [], _ :: _, _ => rfl
  | _ :: _, [], h => by simp [lexLt] at h
  | c :: cs, d :: ds, h => by
    by_cases hcd : c < d
    · simp [lexLt, hcd, asymm hcd, not_lt_of_gt hcd]
    · by_cases hdc : d < c
      · simp [lexLt, hcd, hdc] at h
      · simp [lexLt, hcd, hdc] at h ⊢
        exact lexLt_asymm cs ds h

theorem lexLt_connex : ∀ l₁ l₂ : List Char, lexLt l₁ l₂ = false → lexLt l₂ l₁ = false →
    l₁ = l₂
  | [], [], _, _ => rfl
  | [], _ :: _, h, _ => by simp [lexLt] at h
  | _ :: _, [], _, h => by simp [lexLt] at h
  | c :: cs, d :: ds, h₁, h₂ => by
    by_cases hcd : c < d
    · simp [lexLt, hcd] at h₁
    · by_cases hdc : d < c
      · simp [lexLt, hdc] at h₂
      · have hcd' : c = d := le_antisymm (not_lt.mp hdc) (not_lt.mp hcd)
        subst hcd'
        simp [lexLt, hcd] at h₁ h₂
        simp [lexLt_connex cs ds h₁ h₂]

theorem lexLt_nil_right : ∀ l : List Char, lexLt l [] = false
  | [] => rfl
  | _ :: _ => rfl

theorem lexLt_trans : ∀ l₁ l₂ l₃ : List Char, lexLt l₁ l₂ = true → lexLt l₂ l₃ = true →
    lexLt l₁ l₃ = true
  | l₁, [], _, h₁, _ => absurd h₁ (by simp [lexLt_nil_right l₁])
  | _, _ :: _, [], _, h₂ => absurd h₂ (by simp [lexLt_nil_right])
  | [], _ :: _, _ :: _, _, _ => rfl
  | c :: cs, d :: ds, e :: es, h₁, h₂ => by
    by_cases hcd : c < d
    · by_cases hde : d < e
      · simp [lexLt, lt_trans hcd hde]
      · by_cases hed : e < d
        · simp [lexLt, hde, hed] at h₂
        · have : d = e := le_antisymm (not_lt.mp hed) (not_lt.mp hde)
          subst this
          simp [lexLt, hcd]
    · by_cases hdc : d < c
      · simp [lexLt, hcd, hdc] at h₁
      · have : c = d := le_antisymm (not_lt.mp hdc) (not_lt.mp hcd)
        subst this
        simp [lexLt, lt_irrefl] at h₁
        by_cases hde : c < e
        · simp [lexLt, hde]
        · by_cases hed : e < c
          · simp [lexLt, hde, hed] at h₂
          · have : c = e := le_antisymm (not_lt.mp hed) (not_lt.mp hde)
            subst this
            simp [lexLt, lt_irrefl] at h₂ ⊢
            exact lexLt_trans cs ds es h₁ h₂

theorem strLe_total (a b : String) : strLe a b = true ∨ strLe b a = true := by
  by_cases h : lexLt b.data a.data = true
  · right
    simp [strLe, strLt, lexLt_asymm _ _ h]
  · left
    simp [strLe, strLt]
    simpa using h

theorem strLe_antisymm {a b : String} (h₁ : strLe a b = true) (h₂ : strLe b a = true) :
    a = b := by
  simp [strLe, strLt] at h₁ h₂
  exact String.ext (lexLt_connex _ _ (by simpa using h₂) (by simpa using h₁))

theorem strLe_trans {a b c : String} (h₁ : strLe a b = true) (h₂ : strLe b c = true) :
    strLe a c = true := by
  simp [strLe, strLt] at h₁ h₂ ⊢
  rcases Bool.eq_false_or_eq_true (lexLt c.data a.data) with h | h
  · rcases Bool.eq_false_or_eq_true (lexLt a.data b.data) with hab | hab
    · have := lexLt_trans _ _ _ h hab
      exact absurd this (by simp [h₂])
    · have : a.data = b.data := lexLt_connex _ _ hab h₁
      rw [← this] at h₂
      exact absurd h (by simp [h₂])
  · exact h

instance keyRel.total (direction : Direction) : IsTotal String (keyRel direction) := by
  constructor
  intro a b
  cases direction
  · exact strLe_total a b
  · exact Or.symm (strLe_total a b)

instance keyRel.trans (direction : Direction) : IsTrans String (keyRel direction) := by
  constructor
  intro a b c h₁ h₂
  cases direction
  · exact strLe_trans h₁ h₂
  · exact strLe_trans h₂ h₁

instance keyRel.antisymm (direction : Direction) : IsAntisymm String (keyRel direction) := by
  constructor
  intro a b h₁ h₂
  cases direction
  · exact strLe_antisymm h₁ h₂
  · exact strLe_antisymm h₂ h₁

theorem entryLeF_total (e f : Entry) :
    entryLe .forward e f = true ∨ entryLe .forward f e = true := by
  simp only [entryLe]
  rcases lt_trichotomy e.timestamp f.timestamp with h | h | h
  · left; simp [h]
  · rw [h]
    simp only [lt_irrefl, if_false]
    exact strLe_total _ _
  · right; simp [h]

theorem entryLeF_trans {e f g : Entry} (h₁ : entryLe .forward e f = true)
    (h₂ : entryLe .forward f g = true) : entryLe .forward e g = true := by
  simp only [entryLe] at h₁ h₂ ⊢
  by_cases hef : e.timestamp < f.timestamp <;> by_cases hfg : f.timestamp < g.timestamp
  · simp [lt_trans hef hfg]
  · by_cases hgf : g.timestamp < f.timestamp
    · simp [hfg, hgf] at h₂
    · have hfg' : f.timestamp = g.timestamp := le_antisymm (not_lt.mp hgf) (not_lt.mp hfg)
      simp [hfg' ▸ hef]
  · by_cases hfe : f.timestamp < e.timestamp
    · simp [hef, hfe] at h₁
    · have hef' : e.timestamp = f.timestamp := le_antisymm (not_lt.mp hfe) (not_lt.mp hef)
      simp [hef' ▸ hfg]
  · by_cases hfe : f.timestamp < e.timestamp
    · simp [hef, hfe] at h₁
    · by_cases hgf : g.timestamp < f.timestamp
      · simp [hfg, hgf] at h₂
      · have hef' : e.timestamp = f.timestamp := le_antisymm (not_lt.mp hfe) (not_lt.mp hef)
        have hfg' : f.timestamp = g.timestamp := le_antisymm (not_lt.mp hgf) (not_lt.mp hfg)
        simp [hef, hfe] at h₁
        simp [hfg, hgf] at h₂
        have heg : e.timestamp = g.timestamp := hef'.trans hfg'
        rw [heg]
        simp [strLe_trans h₁ h₂]

theorem entryLeF_antisymm {e f : Entry} (h₁ : entryLe .forward e f = true)
    (h₂ : entryLe .forward f e = true) : e = f := by
  simp only [entryLe] at h₁ h₂
  rcases lt_trichotomy e.timestamp f.timestamp with h | h | h
  · simp [h, asymm h] at h₂
  · rw [h] at h₁ h₂
    simp only [lt_irrefl, if_false] at h₁ h₂
    cases e; cases f
    simp_all
    exact strLe_antisymm h₁ h₂
  · simp [h, asymm h] at h₁

theorem entryLe_backward_eq (e f : Entry) :
    entryLe .backward e f = entryLe .forward f e := rfl

instance entryRel.total (direction : Direction) : IsTotal Entry (entryRel direction) := by
  constructor
  intro e f
  cases direction
  · exact entryLeF_total e f
  · simp only [entryRel, entryLe_backward_eq]
    exact entryLeF_total f e

instance entryRel.trans (direction : Direction) : IsTrans Entry (entryRel direction) := by
  constructor
  intro e f g h₁ h₂
  cases direction
  · exact entryLeF_trans h₁ h₂
  · simp only [entryRel, entryLe_backward_eq] at h₁ h₂ ⊢
    exact entryLeF_trans h₂ h₁

instance entryRel.antisymm (direction : Direction) : IsAntisymm Entry (entryRel direction) := by
  constructor
  intro e f h₁ h₂
  cases direction
  · exact entryLeF_antisymm h₁ h₂
  · simp only [entryRel, entryLe_backward_eq] at h₁ h₂
    exact entryLeF_antisymm h₂ h₁

/-! ### Counting lemmas for the LogResponse merge -/
theorem totalEntries_append (l₁ l₂ : List Stream) :
    totalEntries (l₁ ++ l₂) = totalEntries l₁ + totalEntries l₂ := by
  simp [totalEntries]

theorem totalEntries_eq_count (r : LokiResponse) :
    totalEntries r.data.result = r.Count := rfl

/-- Length of a merged group: the insertion sort permutes the flattened
blocks. -/
theorem byDirMerge_length (direction : Direction) (markers : List (List Entry)) :
    (byDirMerge direction markers).length = (markers.map List.length).sum := by
  rw [byDirMerge, (List.perm_insertionSort _ _).length_eq, List.length_flatten]

/-- The collected prefix never holds more entries than are available. -/
theorem collectStreams_le (limit : Nat) :
    ∀ (resps : List LokiResponse) (total : Nat),
      totalEntries (collectStreams limit total resps) ≤ (resps.map LokiResponse.Count).sum
  | [], _ => le_refl _
  | r :: rest, total => by
    simp only [collectStreams, List.map_cons, List.sum_cons, totalEntries_append,
      totalEntries_eq_count]
    by_cases h : limit ≤ total + r.Count
    · simp [h, totalEntries]
    · simp only [h, if_false]
      exact Nat.add_le_add_left (collectStreams_le limit rest (total + r.Count)) _

/-- Either every response was collected, or the break fired and the running
total (starting total included) reached the limit. -/
theorem collectStreams_spec (limit : Nat) :
    ∀ (resps : List LokiResponse) (total : Nat),
      totalEntries (collectStreams limit total resps) = (resps.map LokiResponse.Count).sum ∨
        limit ≤ total + totalEntries (collectStreams limit total resps)
  | [], _ => Or.inl rfl
  | r :: rest, total => by
    simp only [collectStreams, List.map_cons, List.sum_cons, totalEntries_append,
      totalEntries_eq_count]
    by_cases h : limit ≤ total + r.Count
    · right
      simp only [h, if_true]
      simp only [totalEntries] at *
      simp only [List.map_nil, List.sum_nil]
      omega
    · simp only [h, if_false]
      rcases collectStreams_spec limit rest (total + r.Count) with h' | h'
      · left; rw [h']
      · right; omega

/-- When the limit is never reached, the collection loop gathers every
stream of every response. -/
theorem collectStreams_all (limit : Nat) :
    ∀ (resps : List LokiResponse) (total : Nat),
      total + (resps.map LokiResponse.Count).sum < limit →
      collectStreams limit total resps = (resps.map (fun r => r.data.result)).flatten
  | [], _, _ => rfl
  | r :: rest, total, h => by
    simp only [List.map_cons, List.sum_cons] at h
    have hbr : ¬ limit ≤ total + r.Count := by omega
    simp only [collectStreams, hbr, if_false, List.map_cons, List.flatten_cons]
    rw [collectStreams_all limit rest (total + r.Count) (by omega)]

theorem totalEntries_cons (s : Stream) (l : List Stream) :
    totalEntries (s :: l) = s.entries.length + totalEntries l := by
  simp [totalEntries]

/-- Splitting a sum of stream-entry counts along a Boolean predicate. -/
theorem totalEntries_filter_partition (p : Stream → Bool) :
    ∀ l : List Stream,
      totalEntries (l.filter p) + totalEntries (l.filter (fun s => !(p s))) = totalEntries l
  | [] => rfl
  | s :: l => by
    have ih := totalEntries_filter_partition p l
    by_cases h : p s
    · simp [List.filter_cons, h, totalEntries_cons]
      omega
    · simp [List.filter_cons, h, totalEntries_cons]
      omega

/-- Filtering away streams of a different key leaves a key's group
untouched. -/
theorem groupMarkers_filter_ne {j k : String} (hjk : j ≠ k) (l : List Stream) :
    groupMarkers (l.filter (fun s => !(s.labels == k))) j = groupMarkers l j := by
  simp only [groupMarkers, List.filter_filter]
  congr 1
  apply List.filter_congr
  intro s _
  by_cases h : s.labels = j
  · simp [h, hjk]
  · simp [h]

/-- Summing the group sizes over any key cover of the collected streams
accounts for every collected entry. -/
theorem sum_groupMarkers (keys : List String) :
    ∀ l : List Stream, keys.Nodup → (∀ s ∈ l, s.labels ∈ keys) →
      (keys.map (fun k => ((groupMarkers l k).map List.length).sum)).sum = totalEntries l := by
  induction keys with
  | nil =>
    intro l _ hcov
    cases l with
    | nil => rfl
    | cons s l => exact absurd (hcov s (by simp)) (by simp)
  | cons k ks ih =>
    intro l hnd hcov
    simp only [List.map_cons, List.sum_cons]
    have hgroup : ((groupMarkers l k).map List.length).sum =
        totalEntries (l.filter (fun s => s.labels == k)) := by
      rw [groupMarkers, totalEntries, List.map_map]
      rfl
    have hrest : (ks.map (fun j => ((groupMarkers l j).map List.length).sum)).sum =
        totalEntries (l.filter (fun s => !(s.labels == k))) := by
      have hcong : ks.map (fun j => ((groupMarkers l j).map List.length).sum) =
          ks.map (fun j =>
            ((groupMarkers (l.filter (fun s => !(s.labels == k))) j).map List.length).sum) := by
        apply List.map_congr_left
        intro j hj
        have hjk : j ≠ k := by
          rintro rfl
          exact (List.nodup_cons.mp hnd).1 hj
        rw [groupMarkers_filter_ne hjk]
      rw [hcong]
      apply ih _ (List.nodup_cons.mp hnd).2
      intro s hs
      rcases List.mem_filter.mp hs with ⟨hsl, hlab⟩
      rcases List.mem_cons.mp (hcov s hsl) with h | h
      · simp [h] at hlab
      · exact h
    rw [hgroup, hrest, totalEntries_filter_partition]

theorem sortedKeys_nodup (direction : Direction) (collected : List Stream) :
    (sortedKeys direction collected).Nodup :=
  ((List.perm_insertionSort _ _).nodup_iff).mpr (List.nodup_dedup _)

theorem sortedKeys_sorted (direction : Direction) (collected : List Stream) :
    List.Sorted (keyRel direction) (sortedKeys direction collected) :=
  List.sorted_insertionSort _ _

theorem mem_sortedKeys (direction : Direction) {collected : List Stream} {s : Stream}
    (hs : s ∈ collected) : s.labels ∈ sortedKeys direction collected :=
  ((List.perm_insertionSort _ _).mem_iff).mpr (List.mem_dedup.mpr (List.mem_map_of_mem _ hs))

theorem sum_sortedKeys (direction : Direction) (collected : List Stream) :
    ((sortedKeys direction collected).map
        (fun k => ((groupMarkers collected k).map List.length).sum)).sum =
      totalEntries collected := by
  rw [sortedKeys,
    ((List.perm_insertionSort (keyRel direction) (groupKeys collected)).map _).sum_eq]
  apply sum_groupMarkers _ _ (List.nodup_dedup _)
  intro s hs
  exact List.mem_dedup.mpr (List.mem_map_of_mem _ hs)

theorem popBest.popHead_spec {s : Stream} {e : Entry} {es : List Entry}
    (hs : s.entries = e :: es) (rest : List Stream) :
    ∃ pq', popBest.popHead s rest = some (s.labels, e, pq') ∧
      (pq'.map (fun t => t.labels)).Sublist ((s :: rest).map (fun t => t.labels)) ∧
      totalEntries pq' + 1 = totalEntries (s :: rest) ∧
      (pqInv rest → pqInv pq') := by
  cases es with
  | nil =>
    refine ⟨rest, ?_, ?_, ?_, ?_⟩
    · simp [popBest.popHead, hs]
    · simp only [List.map_cons]
      exact List.sublist_cons_self _ _
    · simp [totalEntries_cons, hs]
      omega
    · exact fun h => h
  | cons e' es' =>
    refine ⟨logproto.Stream.mk s.labels (e' :: es') :: rest, ?_, ?_, ?_, ?_⟩
    · simp [popBest.popHead, hs]
    · simp
    · simp [totalEntries_cons, hs]
      omega
    · intro h t ht
      rcases List.mem_cons.mp ht with rfl | ht'
      · simp
      · exact h t ht'

theorem popBest_spec (direction : Direction) :
    ∀ pq : List Stream, pqInv pq → pq ≠ [] →
      ∃ k e pq', popBest direction pq = some (k, e, pq') ∧
        k ∈ pq.map (fun t => t.labels) ∧
        (pq'.map (fun t => t.labels)).Sublist (pq.map (fun t => t.labels)) ∧
        totalEntries pq' + 1 = totalEntries pq ∧
        pqInv pq'
  | [], _, hne => absurd rfl hne
  | s :: rest, hinv, _ => by
    have hsne : s.entries ≠ [] := hinv s (by simp)
    obtain ⟨e, es, hs⟩ : ∃ e es, s.entries = e :: es := by
      cases hse : s.entries with
      | nil => exact absurd hse hsne
      | cons e es => exact ⟨e, es, rfl⟩
    have hinvrest : pqInv rest := fun t ht => hinv t (List.mem_cons_of_mem _ ht)
    obtain ⟨pq', hpop, hsub, htot, hinv'⟩ := popBest.popHead_spec hs rest
    by_cases hrestne : rest = []
    · subst hrestne
      refine ⟨s.labels, e, pq', ?_, by simp, hsub, htot, hinv' hinvrest⟩
      simp only [popBest, hpop]
    · obtain ⟨k₀, e₀, pq₀, hpop₀, hkmem₀, hsub₀, htot₀, hinv₀⟩ :=
        popBest_spec direction rest hinvrest hrestne
      by_cases hbet : heapBetter direction e₀.timestamp (headTimestamp s) = true
      · refine ⟨k₀, e₀, s :: pq₀, ?_, ?_, ?_, ?_, ?_⟩
        · simp only [popBest, hpop₀, hbet, if_true]
        · simp only [List.map_cons]
          exact List.mem_cons_of_mem _ hkmem₀
        · simp only [List.map_cons]
          exact hsub₀.cons₂ s.labels
        · rw [totalEntries_cons, totalEntries_cons]
          omega
        · intro u hu
          rcases List.mem_cons.mp hu with rfl | hu'
          · exact hsne
          · exact hinv₀ u hu'
      · refine ⟨s.labels, e, pq', ?_, by simp, hsub, htot, hinv' hinvrest⟩
        simp only [popBest, hpop₀, hbet, if_false]
        exact hpop

theorem bucketsTotal_addBucket (k : String) (e : Entry) :
    ∀ acc : List (String × List Entry),
      ((addBucket acc k e).map (fun b => b.2.length)).sum =
        ((acc.map (fun b => b.2.length)).sum) + 1
  | [] => by simp [addBucket]
  | (k', es) :: rest => by
    by_cases h : k' = k
    · simp [addBucket, h]
      omega
    · simp [addBucket, h, bucketsTotal_addBucket k e rest]
      omega

/-- Bucket keys after an insertion. -/
theorem keys_addBucket (k : String) (e : Entry) :
    ∀ acc : List (String × List Entry),
      (addBucket acc k e).map Prod.fst =
        (if k ∈ acc.map Prod.fst then acc.map Prod.fst else acc.map Prod.fst ++ [k])
  | [] => by simp [addBucket]
  | (k', es) :: rest => by
    by_cases h : k' = k
    · simp [addBucket, h]
    · simp only [addBucket, h, if_false, List.map_cons, keys_addBucket k e rest]
      by_cases hmem : k ∈ rest.map Prod.fst
      · simp [hmem, Ne.symm h]
      · simp [hmem, Ne.symm h]

/-- The pop loop emits exactly `min limit (totalEntries pq)` entries into
the buckets and only ever touches keys drawn from the queue labels. -/
theorem heapLoop_spec (direction : Direction) (keys : List String) :
    ∀ (n : Nat) (pq : List Stream) (acc : List (String × List Entry)),
      pqInv pq → (∀ l ∈ pq.map (fun t => t.labels), l ∈ keys) →
      (∀ l ∈ acc.map Prod.fst, l ∈ keys) → (acc.map Prod.fst).Nodup →
      (((heapLoop direction n pq acc).map (fun b => b.2.length)).sum =
          (acc.map (fun b => b.2.length)).sum + min n (totalEntries pq)) ∧
        (∀ l ∈ (heapLoop direction n pq acc).map Prod.fst, l ∈ keys) ∧
        ((heapLoop direction n pq acc).map Prod.fst).Nodup
  | 0, pq, acc, _, _, hacc, hnd => by
    simp only [heapLoop, Nat.zero_min, Nat.add_zero]
    exact ⟨by simp, hacc, hnd⟩
  | n + 1, pq, acc, hinv, hpq, hacc, hnd => by
    cases hpqe : pq with
    | nil =>
      subst hpqe
      simp only [heapLoop, popBest, totalEntries, List.map_nil, List.sum_nil,
        Nat.min_zero, Nat.add_zero]
      exact ⟨by simp, hacc, hnd⟩
    | cons s rest =>
      obtain ⟨k, e, pq', hpop, hkmem, hsub, htot, hinv'⟩ :=
        popBest_spec direction pq hinv (by simp [hpqe])
      rw [← hpqe]
      simp only [heapLoop, hpop]
      have hkkeys : k ∈ keys := hpq k hkmem
      have hacc' : ∀ l ∈ (addBucket acc k e).map Prod.fst, l ∈ keys := by
        intro l hl
        rw [keys_addBucket] at hl
        by_cases hmem : k ∈ acc.map Prod.fst
        · exact hacc l (by simpa [hmem] using hl)
        · simp only [hmem, if_false, List.mem_append, List.mem_singleton] at hl
          rcases hl with hl | rfl
          · exact hacc l hl
          · exact hkkeys
      have hnd' : ((addBucket acc k e).map Prod.fst).Nodup := by
        rw [keys_addBucket]
        by_cases hmem : k ∈ acc.map Prod.fst
        · simpa [hmem] using hnd
        · simp only [hmem, if_false]
          simpa [List.nodup_append, hmem] using hnd
      obtain ⟨hsum, hkeys'', hnd''⟩ := heapLoop_spec direction keys n pq'
        (addBucket acc k e) hinv' (fun l hl => hpq l (hsub.subset hl)) hacc' hnd'
      refine ⟨?_, hkeys'', hnd''⟩
      rw [hsum, bucketsTotal_addBucket]
      have : totalEntries pq = totalEntries pq' + 1 := htot.symm
      rw [this, Nat.succ_min_succ]
      omega

theorem lookupBucket_isSome_iff (k : String) :
    ∀ acc : List (String × List Entry),
      (lookupBucket acc k).isSome = true ↔ k ∈ acc.map Prod.fst
  | [] => by simp [lookupBucket]
  | (k', es) :: rest => by
    by_cases h : k' = k
    · simp [lookupBucket, h]
    · simp [lookupBucket, h, lookupBucket_isSome_iff k rest, Ne.symm h]

theorem lookupBucket_filter_ne {j k : String} (hjk : j ≠ k) :
    ∀ acc : List (String × List Entry),
      lookupBucket (acc.filter (fun b => !(b.1 == k))) j = lookupBucket acc j
  | [] => rfl
  | (k', es) :: rest => by
    by_cases hk : k' = k
    · subst hk
      simp [List.filter_cons, lookupBucket, Ne.symm hjk, lookupBucket_filter_ne hjk rest]
    · by_cases hj : k' = j
      · subst hj
        simp [List.filter_cons, hk, lookupBucket]
      · simp [List.filter_cons, hk, hj, lookupBucket, lookupBucket_filter_ne hjk rest]

theorem bucketsTotal_erase {k : String} {es : List Entry} :
    ∀ acc : List (String × List Entry), (acc.map Prod.fst).Nodup →
      lookupBucket acc k = some es →
      (acc.map (fun b => b.2.length)).sum =
        es.length + (((acc.filter (fun b => !(b.1 == k))).map (fun b => b.2.length)).sum)
  | [], _, hlk => by simp [lookupBucket] at hlk
  | (k', es') :: rest, hnd, hlk => by
    by_cases h : k' = k
    · subst h
      simp [lookupBucket] at hlk
      subst hlk
      have hknotin : k' ∉ rest.map Prod.fst := by
        simpa using (List.nodup_cons.mp hnd).1
      have hfil : rest.filter (fun b => !(b.1 == k')) = rest := by
        apply List.filter_eq_self.mpr
        intro b hb
        simp only [Bool.not_eq_eq_eq_not, Bool.not_true, beq_eq_false_iff_ne, ne_eq]
        intro hbk
        exact hknotin (hbk ▸ List.mem_map_of_mem Prod.fst hb)
      simp [List.filter_cons, hfil]
    · simp only [lookupBucket, h, if_false] at hlk
      have := bucketsTotal_erase rest (List.nodup_cons.mp hnd).2 hlk
      simp [List.filter_cons, h, this]
      omega

/-- Reading the buckets back in key order accounts for every bucketed
entry, provided the key list is duplicate-free and covers the buckets. -/
theorem sum_filterMap_lookup :
    ∀ (K : List String) (acc : List (String × List Entry)), K.Nodup →
      (∀ l ∈ acc.map Prod.fst, l ∈ K) → (acc.map Prod.fst).Nodup →
      totalEntries (K.filterMap (fun k => (lookupBucket acc k).map (logproto.Stream.mk k))) =
        (acc.map (fun b => b.2.length)).sum
  | [], acc, _, hcov, _ => by
    cases acc with
    | nil => rfl
    | cons b rest => exact absurd (hcov b.1 (by simp)) (by simp)
  | k :: ks, acc, hnd, hcov, hand => by
    cases hlk : lookupBucket acc k with
    | none =>
      have hknot : k ∉ acc.map Prod.fst := by
        intro hmem
        have := (lookupBucket_isSome_iff k acc).mpr hmem
        simp [hlk] at this
      have hcov' : ∀ l ∈ acc.map Prod.fst, l ∈ ks := by
        intro l hl
        rcases List.mem_cons.mp (hcov l hl) with rfl | h
        · exact absurd hl hknot
        · exact h
      simp only [List.filterMap_cons, hlk, Option.map_none']
      exact sum_filterMap_lookup ks acc (List.nodup_cons.mp hnd).2 hcov' hand
    | some es =>
      have hacc' : ∀ l ∈ (acc.filter (fun b => !(b.1 == k))).map Prod.fst, l ∈ ks := by
        intro l hl
        rcases List.mem_map.mp hl with ⟨b, hb, rfl⟩
        rcases List.mem_filter.mp hb with ⟨hbmem, hbne⟩
        have hbne' : b.1 ≠ k := by simpa using hbne
        rcases List.mem_cons.mp (hcov b.1 (List.mem_map_of_mem _ hbmem)) with h | h
        · exact absurd h hbne'
        · exact h
      have hnd' : ((acc.filter (fun b => !(b.1 == k))).map Prod.fst).Nodup :=
        ((List.filter_sublist acc).map Prod.fst).nodup hand
      have hcong : ks.filterMap (fun j => (lookupBucket acc j).map (logproto.Stream.mk j)) =
          ks.filterMap (fun j =>
            (lookupBucket (acc.filter (fun b => !(b.1 == k))) j).map (logproto.Stream.mk j)) := by
        apply List.filterMap_congr
        intro j hj
        have hjk : j ≠ k := by
          rintro rfl
          exact (List.nodup_cons.mp hnd).1 hj
        rw [lookupBucket_filter_ne hjk]
      simp only [List.filterMap_cons, hlk, Option.map_some', totalEntries_cons]
      rw [hcong,
        sum_filterMap_lookup ks _ (List.nodup_cons.mp hnd).2 hacc' hnd',
        bucketsTotal_erase acc hand hlk]

/-! ### Characterizations of `mergeOrderedNonOverlappingStreams` -/
/-- The escape hatch: at most `limit` entries were collected, so every
group is returned whole, in key order. -/
theorem mergeOrdered_eq_escape {resps : List LokiResponse} {limit : Nat}
    {direction : Direction}
    (h : totalEntries (collectStreams limit 0 resps) ≤ limit) :
    mergeOrderedNonOverlappingStreams resps limit direction =
      (sortedKeys direction (collectStreams limit 0 resps)).map
        (fun k => logproto.Stream.mk k
          (byDirMerge direction (groupMarkers (collectStreams limit 0 resps) k))) := by
  simp only [mergeOrderedNonOverlappingStreams, h, if_true]

/-- The heap path: more entries were collected than the limit allows. -/
theorem mergeOrdered_eq_heap {resps : List LokiResponse} {limit : Nat}
    {direction : Direction}
    (h : ¬ totalEntries (collectStreams limit 0 resps) ≤ limit) :
    mergeOrderedNonOverlappingStreams resps limit direction =
      (sortedKeys direction (collectStreams limit 0 resps)).filterMap
        (fun k => (lookupBucket
            (heapLoop direction limit
              ((sortedKeys direction (collectStreams limit 0 resps)).filterMap (fun k =>
                let entries := byDirMerge direction
                  (groupMarkers (collectStreams limit 0 resps) k)
                if entries.isEmpty then none else some (logproto.Stream.mk k entries)))
              []) k).map
          (logproto.Stream.mk k)) := by
  simp only [mergeOrderedNonOverlappingStreams, h, if_false]

theorem totalEntries_seed (direction : Direction) (collected : List Stream) :
    ∀ K : List String,
      totalEntries (K.filterMap (fun k =>
          let entries := byDirMerge direction (groupMarkers collected k)
          if entries.isEmpty then none else some (logproto.Stream.mk k entries))) =
        (K.map (fun k => ((groupMarkers collected k).map List.length).sum)).sum
  | [] => rfl
  | k :: ks => by
    have ih := totalEntries_seed direction collected ks
    by_cases h : (byDirMerge direction (groupMarkers collected k)).isEmpty
    · have hlen : ((groupMarkers collected k).map List.length).sum = 0 := by
        rw [← byDirMerge_length direction]
        simpa [List.isEmpty_iff] using h
      simp only [List.filterMap_cons, h, reduceIte, List.map_cons, List.sum_cons, hlen,
        Nat.zero_add]
      exact ih
    · have hf : (byDirMerge direction (groupMarkers collected k)).isEmpty = false := by
        simpa using h
      simp only [List.filterMap_cons, hf, Bool.false_eq_true, reduceIte, List.map_cons,
        List.sum_cons, totalEntries_cons, ih, ← byDirMerge_length direction]

theorem seed_inv (direction : Direction) (collected : List Stream) (K : List String) :
    pqInv (K.filterMap (fun k =>
      let entries := byDirMerge direction (groupMarkers collected k)
      if entries.isEmpty then none else some (logproto.Stream.mk k entries))) := by
  intro s hs
  rcases List.mem_filterMap.mp hs with ⟨k, _, hk⟩
  by_cases h : (byDirMerge direction (groupMarkers collected k)).isEmpty
  · simp [h] at hk
  · simp only [h, if_false] at hk
    cases hk
    simpa [List.isEmpty_iff] using h

theorem seed_labels (direction : Direction) (collected : List Stream) (K : List String) :
    ∀ l ∈ (K.filterMap (fun k =>
        let entries := byDirMerge direction (groupMarkers collected k)
        if entries.isEmpty then none else some (logproto.Stream.mk k entries))).map
          (fun t => t.labels), l ∈ K := by
  intro l hl
  rcases List.mem_map.mp hl with ⟨s, hs, rfl⟩
  rcases List.mem_filterMap.mp hs with ⟨k, hk, hks⟩
  by_cases h : (byDirMerge direction (groupMarkers collected k)).isEmpty
  · simp [h] at hks
  · simp only [h, if_false] at hks
    cases hks
    exact hk

/-- The total-entry count of the merged stream list is exactly
`min limit (total entries available)`. -/
theorem mergeOrdered_totalEntries (resps : List LokiResponse) (limit : Nat)
    (direction : Direction) :
    totalEntries (mergeOrderedNonOverlappingStreams resps limit direction) =
      min limit ((resps.map LokiResponse.Count).sum) := by
  have hle := collectStreams_le limit resps 0
  have hspec := collectStreams_spec limit resps 0
  rw [Nat.zero_add] at hspec
  by_cases hesc : totalEntries (collectStreams limit 0 resps) ≤ limit
  · rw [mergeOrdered_eq_escape hesc]
    have htot : totalEntries ((sortedKeys direction (collectStreams limit 0 resps)).map
        (fun k => logproto.Stream.mk k
          (byDirMerge direction (groupMarkers (collectStreams limit 0 resps) k)))) =
        totalEntries (collectStreams limit 0 resps) := by
      rw [totalEntries, List.map_map]
      have : ((fun s => s.entries.length) ∘ fun k => logproto.Stream.mk k
          (byDirMerge direction (groupMarkers (collectStreams limit 0 resps) k))) =
          fun k => ((groupMarkers (collectStreams limit 0 resps) k).map List.length).sum := by
        funext k
        exact byDirMerge_length direction _
      rw [this, sum_sortedKeys]
    rw [htot]
    rcases hspec with h | h
    · omega
    · omega
  · rw [mergeOrdered_eq_heap hesc]
    obtain ⟨hsum, hkeys, hnd⟩ := heapLoop_spec direction
      (sortedKeys direction (collectStreams limit 0 resps)) limit
      ((sortedKeys direction (collectStreams limit 0 resps)).filterMap (fun k =>
        let entries := byDirMerge direction (groupMarkers (collectStreams limit 0 resps) k)
        if entries.isEmpty then none else some (logproto.Stream.mk k entries)))
      [] (seed_inv direction _ _) (seed_labels direction _ _) (by simp) (by simp)
    rw [sum_filterMap_lookup _ _ (sortedKeys_nodup direction _) hkeys hnd, hsum,
      totalEntries_seed, sum_sortedKeys]
    simp only [List.map_nil, List.sum_nil, Nat.zero_add]
    rcases hspec with h | h
    · omega
    · omega

theorem strLt_of_strLe_ne {a b : String} (hle : strLe a b = true) (hne : a ≠ b) :
    strLt a b = true := by
  simp only [strLe, strLt, Bool.not_eq_true'] at hle ⊢
  rcases Bool.eq_false_or_eq_true (lexLt a.data b.data) with h | h
  · exact h
  · exact absurd (String.ext (lexLt_connex _ _ h hle)) hne

theorem keyLt_of_keyRel_ne {direction : Direction} {a b : String}
    (hle : keyRel direction a b) (hne : a ≠ b) : keyLt direction a b = true := by
  cases direction
  · exact strLt_of_strLe_ne hle hne
  · exact strLt_of_strLe_ne hle (Ne.symm hne)

theorem sortedKeys_pairwise_lt (direction : Direction) (collected : List Stream) :
    (sortedKeys direction collected).Pairwise (fun a b => keyLt direction a b = true) :=
  ((sortedKeys_sorted direction collected).and (sortedKeys_nodup direction collected)).imp
    (fun h => keyLt_of_keyRel_ne h.1 h.2)

theorem labels_filterMap_lookup (acc : List (String × List Entry)) :
    ∀ K : List String,
      ((K.filterMap (fun k => (lookupBucket acc k).map (logproto.Stream.mk k))).map
          (fun s => s.labels)) =
        K.filter (fun k => (lookupBucket acc k).isSome)
  | [] => rfl
  | k :: K => by
    cases h : lookupBucket acc k with
    | none => simp [List.filterMap_cons, h, List.filter_cons, labels_filterMap_lookup acc K]
    | some es => simp [List.filterMap_cons, h, List.filter_cons, labels_filterMap_lookup acc K]

/-- The merged output's streams always appear in strictly sorted label-set
key order (ascending for FORWARD, reversed for BACKWARD). -/
theorem mergeOrdered_labels_pairwise (resps : List LokiResponse) (limit : Nat)
    (direction : Direction) :
    ((mergeOrderedNonOverlappingStreams resps limit direction).map
        (fun s => s.labels)).Pairwise (fun a b => keyLt direction a b = true) := by
  by_cases hesc : totalEntries (collectStreams limit 0 resps) ≤ limit
  · rw [mergeOrdered_eq_escape hesc, List.map_map]
    have : ((fun s => s.labels) ∘ fun k => logproto.Stream.mk k
        (byDirMerge direction (groupMarkers (collectStreams limit 0 resps) k))) = id := by
      funext k
      rfl
    rw [this, List.map_id]
    exact sortedKeys_pairwise_lt direction _
  · rw [mergeOrdered_eq_heap hesc, labels_filterMap_lookup]
    exact (sortedKeys_pairwise_lt direction _).sublist (List.filter_sublist _)

/-! ### Canonical-form lemmas (single-response merge, input-order
invariance) -/
theorem statsZero_mergeSplit (s : StatsResult) : statsZero.mergeSplit s = s := by
  cases s
  simp [statsZero, StatsResult.mergeSplit]

theorem statsSum_singleton (s : StatsResult) : statsSum [s] = s := by
  simp [statsSum, statsZero_mergeSplit]

theorem collectStreams_singleton (limit total : Nat) (r : LokiResponse) :
    collectStreams limit total [r] = r.data.result := by
  simp only [collectStreams, ite_self, List.append_nil]

/-- Permuting the marker blocks of a group does not change its merged
entries. -/
theorem byDirMerge_congr_perm (direction : Direction) {m₁ m₂ : List (List Entry)}
    (h : m₁.Perm m₂) : byDirMerge direction m₁ = byDirMerge direction m₂ :=
  List.eq_of_perm_of_sorted
    (((List.perm_insertionSort _ _).trans h.flatten).trans
      (List.perm_insertionSort _ _).symm)
    (List.sorted_insertionSort _ _) (List.sorted_insertionSort _ _)

/-- Permuting the collected streams does not change the sorted key list. -/
theorem sortedKeys_congr_perm (direction : Direction) {l₁ l₂ : List Stream}
    (h : l₁.Perm l₂) :
    sortedKeys direction l₁ = sortedKeys direction l₂ := by
  have hperm : (groupKeys l₁).Perm (groupKeys l₂) := by
    rw [List.perm_iff_count]
    intro a
    simp only [groupKeys]
    rw [List.count_dedup, List.count_dedup]
    have := (h.map (fun s => s.labels)).mem_iff (a := a)
    by_cases hm : a ∈ l₁.map (fun s => s.labels)
    · simp [hm, this.mp hm]
    · have hm₂ : a ∉ l₂.map (fun s => s.labels) := fun hc => hm (this.mpr hc)
      simp only [List.mem_map] at hm hm₂
      simp [hm, hm₂]
  exact List.eq_of_perm_of_sorted
    (((List.perm_insertionSort _ _).trans hperm).trans (List.perm_insertionSort _ _).symm)
    (List.sorted_insertionSort _ _) (List.sorted_insertionSort _ _)

/-- Permuting the collected streams does not change any group's markers up
to permutation. -/
theorem groupMarkers_congr_perm {l₁ l₂ : List Stream} (h : l₁.Perm l₂) (k : String) :
    (groupMarkers l₁ k).Perm (groupMarkers l₂ k) :=
  (h.filter _).map _

/-- A canonical stream list regroups to itself: duplicate-free labels and
per-stream entries already sorted by the direction's order. -/
theorem map_groups_self (direction : Direction) :
    ∀ l : List Stream, (l.map (fun s => s.labels)).Nodup →
      (∀ s ∈ l, List.insertionSort (entryRel direction) s.entries = s.entries) →
      (l.map (fun s => s.labels)).map
          (fun k => logproto.Stream.mk k (byDirMerge direction (groupMarkers l k))) = l
  | [], _, _ => rfl
  | s :: rest, hnd, hsorted => by
    have hnd' : (s.labels :: rest.map (fun t => t.labels)).Nodup := by simpa using hnd
    have hs : s.labels ∉ rest.map (fun t => t.labels) := (List.nodup_cons.mp hnd').1
    have hhead : groupMarkers (s :: rest) s.labels = [s.entries] := by
      rw [groupMarkers]
      rw [List.filter_cons_of_pos (by simp)]
      have : rest.filter (fun t => t.labels == s.labels) = [] := by
        rw [List.filter_eq_nil_iff]
        intro t ht
        simp only [beq_eq_false_iff_ne, ne_eq, beq_iff_eq]
        intro hlab
        exact hs (hlab ▸ List.mem_map_of_mem _ ht)
      rw [this]
      simp
    have htail : ∀ k ∈ rest.map (fun t => t.labels),
        groupMarkers (s :: rest) k = groupMarkers rest k := by
      intro k hk
      rw [groupMarkers, groupMarkers,
        List.filter_cons_of_neg (by
          simp only [beq_eq_false_iff_ne, ne_eq, beq_iff_eq]
          intro hlab
          exact hs (hlab ▸ hk))]
    simp only [List.map_cons, hhead]
    have hmerge : byDirMerge direction [s.entries] = s.entries := by
      rw [byDirMerge]
      simp only [List.flatten, List.append_nil]
      exact hsorted s (by simp)
    rw [hmerge]
    congr 1
    have hrest := map_groups_self direction rest (List.nodup_cons.mp hnd').2
      (fun t ht => hsorted t (List.mem_cons_of_mem _ ht))
    have hcong : (rest.map (fun t => t.labels)).map
        (fun k => logproto.Stream.mk k (byDirMerge direction (groupMarkers (s :: rest) k))) =
        (rest.map (fun t => t.labels)).map
          (fun k => logproto.Stream.mk k (byDirMerge direction (groupMarkers rest k))) := by
      apply List.map_congr_left
      intro k hk
      rw [htail k hk]
    rw [hcong]
    exact hrest

/-! ### Dedup lemmas (SeriesResponse / LabelNamesResponse) -/
theorem dedupSeries_sublist (seen : List (List (String × String))) :
    ∀ l : List SeriesIdentifier, (dedupSeries seen l).Sublist l
  | [] => List.Sublist.refl _
  | s :: rest => by
    rw [dedupSeries]
    by_cases h : s.hashKey ∈ seen
    · simp only [h, if_true]
      exact (dedupSeries_sublist seen rest).cons s
    · simp only [h, if_false]
      exact (dedupSeries_sublist (s.hashKey :: seen) rest).cons₂ s

theorem dedupSeries_keys (seen : List (List (String × String))) :
    ∀ l : List SeriesIdentifier,
      ((dedupSeries seen l).map SeriesIdentifier.hashKey).Nodup ∧
        ∀ k ∈ (dedupSeries seen l).map SeriesIdentifier.hashKey, k ∉ seen
  | [] => by simp [dedupSeries]
  | s :: rest => by
    rw [dedupSeries]
    by_cases h : s.hashKey ∈ seen
    · simp only [h, if_true]
      exact dedupSeries_keys seen rest
    · simp only [h, if_false, List.map_cons, List.nodup_cons]
      obtain ⟨hnd, hout⟩ := dedupSeries_keys (s.hashKey :: seen) rest
      refine ⟨⟨?_, hnd⟩, ?_⟩
      · intro hmem
        exact (hout _ hmem) (by simp)
      · intro k hk
        rcases List.mem_cons.mp hk with rfl | hk'
        · exact h
        · intro hkseen
          exact (hout k hk') (List.mem_cons_of_mem _ hkseen)

theorem exists_cons_key {s : SeriesIdentifier} {rest : List SeriesIdentifier}
    {K : List (String × String)} (hsK : s.hashKey ≠ K) :
    (∃ t ∈ s :: rest, t.hashKey = K) ↔ (∃ t ∈ rest, t.hashKey = K) := by
  constructor
  · rintro ⟨t, ht, hkey⟩
    rcases List.mem_cons.mp ht with rfl | ht'
    · exact absurd hkey hsK
    · exact ⟨t, ht', hkey⟩
  · rintro ⟨t, ht, hkey⟩
    exact ⟨t, List.mem_cons_of_mem _ ht, hkey⟩

theorem dedupSeries_countP (K : List (String × String)) :
    ∀ (l : List SeriesIdentifier) (seen : List (List (String × String))),
      (dedupSeries seen l).countP (fun s => s.hashKey == K) =
        if K ∈ seen then 0 else (if ∃ s ∈ l, s.hashKey = K then 1 else 0)
  | [], seen => by simp [dedupSeries]
  | s :: rest, seen => by
    rw [dedupSeries]
    by_cases h : s.hashKey ∈ seen
    · rw [if_pos h, dedupSeries_countP K rest seen]
      by_cases hK : K ∈ seen
      · simp [hK]
      · have hsK : s.hashKey ≠ K := fun he => hK (he ▸ h)
        simp only [if_neg hK, exists_cons_key hsK]
    · by_cases hsK : s.hashKey = K
      · subst hsK
        rw [if_neg h, List.countP_cons, dedupSeries_countP _ rest (s.hashKey :: seen)]
        simp [h]
      · have hbeq : (s.hashKey == K) = false := by simpa using hsK
        rw [if_neg h, List.countP_cons, dedupSeries_countP K rest (s.hashKey :: seen)]
        by_cases hK : K ∈ seen
        · simp [hbeq, hK, Ne.symm hsK]
        · have hKseen' : K ∉ s.hashKey :: seen := by
            simp [hK, Ne.symm hsK]
          simp [hbeq, hKseen', hK, hsK]

theorem dedupSeries_find? (seen : List (List (String × String))) :
    ∀ l : List SeriesIdentifier, ∀ t ∈ dedupSeries seen l,
      l.find? (fun s => s.hashKey == t.hashKey) = some t
  | [] => by simp [dedupSeries]
  | s :: rest => by
    rw [dedupSeries]
    by_cases h : s.hashKey ∈ seen
    · rw [if_pos h]
      intro t ht
      have hne : s.hashKey ≠ t.hashKey := by
        intro he
        exact ((dedupSeries_keys seen rest).2 t.hashKey
          (List.mem_map.mpr ⟨t, ht, rfl⟩)) (he ▸ h)
      rw [List.find?_cons_of_neg _ (by simpa using hne)]
      exact dedupSeries_find? seen rest t ht
    · rw [if_neg h]
      intro t ht
      rcases List.mem_cons.mp ht with rfl | ht'
      · rw [List.find?_cons_of_pos _ (by simp)]
      · have hkey : t.hashKey ∉ s.hashKey :: seen :=
          (dedupSeries_keys (s.hashKey :: seen) rest).2 t.hashKey
            (List.mem_map.mpr ⟨t, ht', rfl⟩)
        have hne : s.hashKey ≠ t.hashKey := fun he =>
          hkey (he ▸ List.mem_cons_self _ _)
        rw [List.find?_cons_of_neg _ (by simpa using hne)]
        exact dedupSeries_find? (s.hashKey :: seen) rest t ht'

theorem ofDigitsRev_natDigitsRev : ∀ fuel n, n ≤ fuel →
    ofDigitsRev (natDigitsRev fuel n) = n
  | 0, n, h => by
    interval_cases n
    rfl
  | fuel + 1, n, h => by
    by_cases hn : n = 0
    · simp [natDigitsRev, hn, ofDigitsRev]
    · have hdiv : n / 10 ≤ fuel := by
        have := Nat.div_lt_self (Nat.pos_of_ne_zero hn) (by norm_num : 1 < 10)
        omega
      rw [natDigitsRev]
      simp only [hn, if_false]
      rw [ofDigitsRev, ofDigitsRev_natDigitsRev fuel (n / 10) hdiv]
      omega

theorem natDigitsRev_lt : ∀ fuel n, ∀ d ∈ natDigitsRev fuel n, d < 10
  | 0, _, d, h => by simp [natDigitsRev] at h
  | fuel + 1, n, d, h => by
    rw [natDigitsRev] at h
    by_cases hn : n = 0
    · simp [hn] at h
    · simp only [hn, if_false, List.mem_cons] at h
      rcases h with rfl | h
      · exact Nat.mod_lt _ (by norm_num)
      · exact natDigitsRev_lt fuel (n / 10) d h

theorem charDigit_digitChar {d : Nat} (h : d < 10) :
    charDigit (Nat.digitChar d) = some d := by
  interval_cases d <;> decide

theorem filterMap_charDigit_map {digs : List Nat} (h : ∀ d ∈ digs, d < 10) :
    (digs.map Nat.digitChar).filterMap charDigit = digs := by
  induction digs with
  | nil => rfl
  | cons d ds ih =>
    rw [List.map_cons, List.filterMap_cons, charDigit_digitChar (h d (by simp))]
    rw [ih (fun x hx => h x (List.mem_cons_of_mem _ hx))]

theorem printNat_all_digits (n : Nat) :
    (printNat n).data.all (fun c => (charDigit c).isSome) = true := by
  rw [printNat]
  by_cases hn : n = 0
  · simp [hn]
    decide
  · simp only [hn, if_false]
    rw [List.all_eq_true]
    intro c hc
    rw [List.mem_reverse, List.mem_map] at hc
    rcases hc with ⟨d, hd, rfl⟩
    rw [charDigit_digitChar (natDigitsRev_lt n n d hd)]
    rfl

theorem printNat_ne_nil (n : Nat) : (printNat n).data ≠ [] := by
  rw [printNat]
  by_cases hn : n = 0
  · simp [hn]
  · simp only [hn, if_false]
    intro hcon
    rw [List.reverse_eq_nil_iff, List.map_eq_nil_iff] at hcon
    cases n with
    | zero => exact hn rfl
    | succ m =>
      rw [natDigitsRev] at hcon
      simp at hcon

theorem parseNat_printNat (n : Nat) : parseNat (printNat n) = some n := by
  rw [parseNat, if_pos ⟨printNat_ne_nil n, printNat_all_digits n⟩]
  by_cases hn : n = 0
  · subst hn
    decide
  · have hdata : (printNat n).data = ((natDigitsRev n n).map Nat.digitChar).reverse := by
      rw [printNat]
      simp [hn]
    rw [hdata, List.reverse_reverse,
      filterMap_charDigit_map (natDigitsRev_lt n n),
      ofDigitsRev_natDigitsRev n n (le_refl n)]

theorem printNat_head_not_dash (n : Nat) : (printNat n).data.head? ≠ some '-' := by
  intro h
  have hmem : '-' ∈ (printNat n).data := by
    cases hd : (printNat n).data with
    | nil => simp [hd] at h
    | cons c cs =>
      simp only [hd, List.head?_cons, Option.some.injEq] at h
      simp [hd, h]
  have := List.all_eq_true.mp (printNat_all_digits n) '-' hmem
  simp [charDigit] at this

theorem parseInt_printInt (i : Int) : parseInt (printInt i) = some i := by
  by_cases h : i < 0
  · have hdata : (printInt i).data = '-' :: (printNat i.natAbs).data := by
      simp [printInt, h]
    have hmk : String.mk (printNat i.natAbs).data = printNat i.natAbs := rfl
    rw [parseInt, hdata]
    simp only [List.head?_cons, if_pos rfl, List.tail_cons, hmk, parseNat_printNat]
    have habs : -((i.natAbs : Int)) = i := by omega
    simp [habs, abs_of_neg h]
  · have hdata : printInt i = printNat i.natAbs := by simp [printInt, h]
    rw [parseInt, hdata, if_neg (printNat_head_not_dash _), parseNat_printNat]
    have habs : ((i.natAbs : Int)) = i := by omega
    simp [habs, abs_of_nonneg (not_lt.mp h)]

theorem charDigit_isSome_ne_dot {c : Char} (h : (charDigit c).isSome = true) : c ≠ '.' := by
  rintro rfl
  simp [charDigit] at h

theorem charDigit_isSome_ne_dash {c : Char} (h : (charDigit c).isSome = true) : c ≠ '-' := by
  rintro rfl
  simp [charDigit] at h

theorem splitAtDot_append : ∀ (a b : List Char), (∀ c ∈ a, c ≠ '.') →
    splitAtDot (a ++ '.' :: b) = (a, b)
  | [], b, _ => by simp [splitAtDot]
  | c :: a, b, h => by
    rw [List.cons_append, splitAtDot]
    simp only [h c (by simp), if_false]
    rw [splitAtDot_append a b (fun x hx => h x (List.mem_cons_of_mem _ hx))]

theorem core_printNat (n : Nat) :
    ofDigitsRev ((printNat n).data.reverse.filterMap charDigit) = n := by
  have h := parseNat_printNat n
  rw [parseNat, if_pos ⟨printNat_ne_nil n, printNat_all_digits n⟩] at h
  exact Option.some.inj h

theorem pad3_digits (r : Nat) : ((pad3 r).data ++ ['0', '0', '0']).all
    (fun c => (charDigit c).isSome) = true := by
  have hd : ∀ d : Nat, d < 10 → (charDigit (Nat.digitChar d)).isSome = true := by
    intro d hlt
    rw [charDigit_digitChar hlt]
    rfl
  rw [List.all_eq_true]
  intro c hc
  simp only [pad3, List.mem_append, List.mem_cons, List.not_mem_nil, or_false] at hc
  rcases hc with h | h
  · rcases h with rfl | rfl | rfl <;> exact hd _ (Nat.mod_lt _ (by norm_num))
  · rcases h with rfl | rfl | rfl <;> decide

theorem parseSecondsCore_print (q r : Nat) (hr : r < 1000) :
    parseSecondsCore ((printNat q).data ++ '.' :: ((pad3 r).data ++ ['0', '0', '0'])) =
      some (q * 1000 + r) := by
  have hnodot : ∀ c ∈ (printNat q).data, c ≠ '.' :=
    fun c hc => charDigit_isSome_ne_dot (List.all_eq_true.mp (printNat_all_digits q) c hc)
  have hsplit := splitAtDot_append (printNat q).data ((pad3 r).data ++ ['0', '0', '0']) hnodot
  simp only [parseSecondsCore, hsplit]
  rw [if_pos ⟨printNat_ne_nil q, printNat_all_digits q, pad3_digits r⟩]
  have htake : ((pad3 r).data ++ ['0', '0', '0'] ++ ['0', '0', '0']).take 3 =
      (pad3 r).data := rfl
  rw [htake, core_printNat]
  congr 1
  have hfrac : ofDigitsRev ((pad3 r).data.reverse.filterMap charDigit) = r := by
    rw [pad3]
    simp only [List.reverse_cons, List.reverse_nil, List.nil_append, List.cons_append,
      List.filterMap_cons, charDigit_digitChar (Nat.mod_lt (r / 100) (by norm_num : 0 < 10)),
      charDigit_digitChar (Nat.mod_lt (r / 10) (by norm_num : 0 < 10)),
      charDigit_digitChar (Nat.mod_lt r (by norm_num : 0 < 10)), List.filterMap_nil]
    simp only [ofDigitsRev]
    omega
  rw [hfrac]

theorem parseSeconds_printSeconds (ms : Int) : parseSeconds (printSeconds ms) = some ms := by
  have hbody : (printSeconds ms).data =
      (if ms < 0 then ['-'] else []) ++
        ((printNat (ms.natAbs / 1000)).data ++
          '.' :: ((pad3 (ms.natAbs % 1000)).data ++ ['0', '0', '0'])) := by
    by_cases h : ms < 0 <;> simp [printSeconds, h]
  have hcore := parseSecondsCore_print (ms.natAbs / 1000) (ms.natAbs % 1000)
    (Nat.mod_lt _ (by norm_num))
  have hdm := Nat.div_add_mod ms.natAbs 1000
  by_cases h : ms < 0
  · have hhead : (printSeconds ms).data.head? = some '-' := by
      rw [hbody]
      simp [h]
    have htail : (printSeconds ms).data.tail =
        (printNat (ms.natAbs / 1000)).data ++
          '.' :: ((pad3 (ms.natAbs % 1000)).data ++ ['0', '0', '0']) := by
      rw [hbody]
      simp [h]
    rw [parseSeconds, if_pos hhead, htail, hcore]
    show some (-(((ms.natAbs / 1000 * 1000 + ms.natAbs % 1000 : Nat) : Int))) = some ms
    congr 1
    omega
  · have hhead : ¬ (printSeconds ms).data.head? = some '-' := by
      rw [hbody]
      simp only [h, if_false, List.nil_append]
      cases hd : (printNat (ms.natAbs / 1000)).data with
      | nil => exact absurd hd (printNat_ne_nil _)
      | cons c cs =>
        simp only [List.cons_append, List.head?_cons, Option.some.injEq]
        intro hcon
        exact charDigit_isSome_ne_dash
          (List.all_eq_true.mp (printNat_all_digits _) c
            (by rw [hd]; exact List.mem_cons_self c cs)) hcon
    have hdata : (printSeconds ms).data =
        (printNat (ms.natAbs / 1000)).data ++
          '.' :: ((pad3 (ms.natAbs % 1000)).data ++ ['0', '0', '0']) := by
      rw [hbody]
      simp [h]
    rw [parseSeconds, if_neg hhead, hdata, hcore]
    show some (((ms.natAbs / 1000 * 1000 + ms.natAbs % 1000 : Nat) : Int)) = some ms
    congr 1
    omega

/-! ### Round-trip of the request codec -/
theorem exceptBind_ok {α β ε : Type} (x : α) (f : α → Except ε β) :
    (Except.ok x : Except ε α).bind f = f x := rfl

theorem exceptBind_error {α β ε : Type} (e : ε) (f : α → Except ε β) :
    (Except.error e : Except ε α).bind f = .error e := rfl

/-- Decoding an encoded range request recovers every field except that the
path is normalized and a zero step is replaced by the range-derived
default. -/
theorem decodeRequest_encode_range (ctx : Ctx) (org : String) (request : LokiRequest)
    (hctx : ctx.orgID = some org) :
    (encodeRequest ctx (.range request)).bind decodeRequest = .ok (.range
        { Query := request.Query, Limit := request.Limit,
          Direction := request.Direction, StartTs := request.StartTs,
          EndTs := request.EndTs,
          Step := if request.Step = 0 then defaultStepMs request.StartTs request.EndTs
                  else request.Step,
          Interval := request.Interval,
          Path := "/loki/api/v1/query_range", Shards := request.Shards }) := by
  by_cases hsh : request.Shards = [] <;> by_cases hst : request.Step = 0 <;>
    by_cases hin : request.Interval = 0 <;>
    cases hdir : request.Direction <;>
    simp +decide [encodeRequest, hctx, decodeRequest, getOperation, parseRangeQuery,
      requireInt, optNat, optDirection, optSeconds, optStep, getParam, getParamValues,
      hsh, hst, hin, hdir, parseInt_printInt, parseNat_printNat,
      parseSeconds_printSeconds, parseDirection, Direction.str, List.find?,
      exceptBind_ok, exceptBind_error]

theorem roundToMsDown_mul (f : Int) : roundToMsDown (f * 1000000) = f :=
  Int.mul_tdiv_cancel f (by norm_num)

theorem roundToMsUp_mul (f : Int) : roundToMsUp (f * 1000000) = f := by
  rw [roundToMsUp, Int.mul_tdiv_cancel f (by norm_num)]
  simp [Int.mul_tmod_left]

theorem toInt32_eq {L : Int} (h₁ : -(2 ^ 31) ≤ L) (h₂ : L < 2 ^ 31) : toInt32 L = L := by
  rw [toInt32]
  omega

/-- Decoding an encoded instant request recovers every field except the
normalized path. -/
theorem decodeRequest_encode_instant (ctx : Ctx) (org : String)
    (request : LokiInstantRequest) (hctx : ctx.orgID = some org) :
    (encodeRequest ctx (.instant request)).bind decodeRequest = .ok (.instant
        { Query := request.Query, Limit := request.Limit,
          Direction := request.Direction, TimeTs := request.TimeTs,
          Path := "/loki/api/v1/query", Shards := request.Shards }) := by
  by_cases hsh : request.Shards = [] <;> cases hdir : request.Direction <;>
    simp +decide [encodeRequest, hctx, decodeRequest, getOperation, parseInstantQuery,
      requireInt, optNat, optDirection, getParam, getParamValues, hsh, hdir,
      parseInt_printInt, parseNat_printNat, parseDirection, Direction.str, List.find?,
      exceptBind_ok, exceptBind_error]

/-- Decoding an encoded series request recovers matchers, bounds and
shards. -/
theorem decodeRequest_encode_series (ctx : Ctx) (org : String)
    (request : LokiSeriesRequest) (hctx : ctx.orgID = some org) :
    (encodeRequest ctx (.series request)).bind decodeRequest = .ok (.series
        { Match := request.Match, StartTs := request.StartTs, EndTs := request.EndTs,
          Path := "/loki/api/v1/series", Shards := request.Shards }) := by
  by_cases hsh : request.Shards = [] <;>
    simp +decide [encodeRequest, hctx, decodeRequest, getOperation, parseSeriesQuery,
      requireInt, getParam, getParamValues, hsh, parseInt_printInt, List.find?,
      exceptBind_ok, exceptBind_error]

/-- Decoding an encoded label request (whose original path is a label
route) recovers bounds and query; name/values are re-derived from the
forwarded path. -/
theorem decodeRequest_encode_label (ctx : Ctx) (org : String)
    (request : LabelRequest) (hctx : ctx.orgID = some org)
    (hpath : getOperation request.path = .labelNamesOp) :
    (encodeRequest ctx (.label request)).bind decodeRequest = .ok (.label
        { Start := request.Start, End := request.End, Query := request.Query,
          Name := (labelValuesName request.path).getD "",
          Values := (labelValuesName request.path).isSome,
          path := request.path }) := by
  simp +decide [encodeRequest, hctx, decodeRequest, hpath, parseLabelQuery,
    requireInt, getParam, getParamValues, parseInt_printInt, List.find?,
    exceptBind_ok, exceptBind_error]

/-- Decoding an encoded index-stats request recovers the millisecond
bounds exactly and the matcher text. -/
theorem decodeRequest_encode_indexStats (ctx : Ctx) (org : String)
    (request : IndexStatsRequest) (hctx : ctx.orgID = some org) :
    (encodeRequest ctx (.indexStats request)).bind decodeRequest = .ok (.indexStats
        { From := request.From, Through := request.Through,
          Matchers := request.Matchers }) := by
  simp +decide [encodeRequest, hctx, decodeRequest, getOperation, parseIndexStatsQuery,
    requireInt, getParam, getParamValues, parseInt_printInt, List.find?,
    roundToMsDown_mul, roundToMsUp_mul, exceptBind_ok, exceptBind_error]

/-- Decoding an encoded volume request recovers bounds, matchers, limit
(within `int32` range) and step; target labels round through a
comma-join/split, and an empty aggregation defaults to the series
aggregation. -/
theorem decodeRequest_encode_volume (ctx : Ctx) (org : String)
    (request : VolumeRequest) (hctx : ctx.orgID = some org)
    (hlo : -(2 ^ 31) ≤ request.Limit) (hhi : request.Limit < 2 ^ 31) :
    (encodeRequest ctx (.volume request)).bind decodeRequest = .ok (.volume
        { From := request.From, Through := request.Through,
          Matchers := request.Matchers, Limit := request.Limit,
          Step := request.Step,
          TargetLabels :=
            if request.TargetLabels = [] then []
            else splitComma (String.intercalate "," request.TargetLabels),
          AggregateBy :=
            if request.AggregateBy = "" then "series" else request.AggregateBy }) := by
  by_cases hst : request.Step = 0 <;> by_cases htl : request.TargetLabels = [] <;>
    by_cases hab : request.AggregateBy = "" <;>
    simp +decide [encodeRequest, hctx, decodeRequest, getOperation,
      parseVolumeRangeQuery, parseVolumeInstantQuery, optStep, requireInt, optInt,
      getParam, getParamValues, hst, htl, hab, parseInt_printInt,
      parseSeconds_printSeconds, List.find?, roundToMsDown_mul, roundToMsUp_mul,
      toInt32_eq hlo hhi, exceptBind_ok, exceptBind_error]

/-! ### Cast lemmas for the merge dispatch -/
theorem castProm_ok : ∀ {l : List Response} {ps : List LokiPromResponse},
    castProm l = .ok ps → l = ps.map Response.prom
  | [], ps, h => by
    simp only [castProm, Except.ok.injEq] at h
    rw [← h]
    rfl
  | .prom p :: rest, ps, h => by
    rw [castProm] at h
    cases hr : castProm rest with
    | error e => rw [hr] at h; simp [Except.map] at h
    | ok ps' =>
      rw [hr] at h
      simp only [Except.map, Except.ok.injEq] at h
      rw [← h, List.map_cons, castProm_ok hr]
  | .log _ :: rest, _, h => by simp [castProm] at h
  | .series _ :: rest, _, h => by simp [castProm] at h
  | .labels _ :: rest, _, h => by simp [castProm] at h
  | .indexStats _ :: rest, _, h => by simp [castProm] at h
  | .volume _ :: rest, _, h => by simp [castProm] at h

theorem castLog_ok : ∀ {l : List Response} {ps : List LokiResponse},
    castLog l = .ok ps → l = ps.map Response.log
  | [], ps, h => by
    simp only [castLog, Except.ok.injEq] at h
    rw [← h]
    rfl
  | .log p :: rest, ps, h => by
    rw [castLog] at h
    cases hr : castLog rest with
    | error e => rw [hr] at h; simp [Except.map] at h
    | ok ps' =>
      rw [hr] at h
      simp only [Except.map, Except.ok.injEq] at h
      rw [← h, List.map_cons, castLog_ok hr]
  | .prom _ :: rest, _, h => by simp [castLog] at h
  | .series _ :: rest, _, h => by simp [castLog] at h
  | .labels _ :: rest, _, h => by simp [castLog] at h
  | .indexStats _ :: rest, _, h => by simp [castLog] at h
  | .volume _ :: rest, _, h => by simp [castLog] at h

theorem castSeries_ok : ∀ {l : List Response} {ps : List LokiSeriesResponse},
    castSeries l = .ok ps → l = ps.map Response.series
  | [], ps, h => by
    simp only [castSeries, Except.ok.injEq] at h
    rw [← h]
    rfl
  | .series p :: rest, ps, h => by
    rw [castSeries] at h
    cases hr : castSeries rest with
    | error e => rw [hr] at h; simp [Except.map] at h
    | ok ps' =>
      rw [hr] at h
      simp only [Except.map, Except.ok.injEq] at h
      rw [← h, List.map_cons, castSeries_ok hr]
  | .prom _ :: rest, _, h => by simp [castSeries] at h
  | .log _ :: rest, _, h => by simp [castSeries] at h
  | .labels _ :: rest, _, h => by simp [castSeries] at h
  | .indexStats _ :: rest, _, h => by simp [castSeries] at h
  | .volume _ :: rest, _, h => by simp [castSeries] at h

theorem castLabels_ok : ∀ {l : List Response} {ps : List LokiLabelNamesResponse},
    castLabels l = .ok ps → l = ps.map Response.labels
  | [], ps, h => by
    simp only [castLabels, Except.ok.injEq] at h
    rw [← h]
    rfl
  | .labels p :: rest, ps, h => by
    rw [castLabels] at h
    cases hr : castLabels rest with
    | error e => rw [hr] at h; simp [Except.map] at h
    | ok ps' =>
      rw [hr] at h
      simp only [Except.map, Except.ok.injEq] at h
      rw [← h, List.map_cons, castLabels_ok hr]
  | .prom _ :: rest, _, h => by simp [castLabels] at h
  | .log _ :: rest, _, h => by simp [castLabels] at h
  | .series _ :: rest, _, h => by simp [castLabels] at h
  | .indexStats _ :: rest, _, h => by simp [castLabels] at h
  | .volume _ :: rest, _, h => by simp [castLabels] at h

theorem castSeries_map (l : List LokiSeriesResponse) :
    castSeries (l.map Response.series) = .ok l := by
  induction l with
  | nil => rfl
  | cons p rest ih =>
    rw [List.map_cons, castSeries, ih]
    rfl

/-! ### Claim theorems -/
/-- C1: for every list of LokiResponses merged (with the first response's
FORWARD/BACKWARD direction and limit L), the total number of entries across
the merged output streams is at most L, and equals the minimum of L and the
total number of entries available across all input responses. -/
theorem mergeLokiResponse_limit_enforcement (r : LokiResponse) (rs : List LokiResponse)
    (m : LokiResponse) (h : mergeLokiResponse (r :: rs) = some m) :
    totalEntries m.data.result ≤ r.limit ∧
      totalEntries m.data.result =
        min r.limit (((r :: rs).map LokiResponse.Count).sum) := by
  rw [mergeLokiResponse] at h
  have hm := (Option.some.inj h).symm
  subst hm
  constructor
  · rw [mergeOrdered_totalEntries]
    exact min_le_left _ _
  · rw [mergeOrdered_totalEntries]

/-- Witness for C1: merging the two one-stream responses of the spec's
concrete scenario (FORWARD, entries at t=1,3,5 and t=2,4,6, limit 4)
yields exactly `min 4 6 = 4` entries. -/
theorem mergeLokiResponse_limit_enforcement_witness :
    totalEntries
        (LokiResponse.mk "success"
          (LokiData.mk "streams"
            [logproto.Stream.mk "{job=a}" [⟨1, "a"⟩, ⟨3, "c"⟩, ⟨5, "e"⟩]]) "" ""
          .forward 4 1 ⟨0, 0, 0⟩ []).data.result = 3 ∧
      (mergeLokiResponse
          [LokiResponse.mk "success"
            (LokiData.mk "streams"
              [logproto.Stream.mk "{job=a}" [⟨1, "a"⟩, ⟨3, "c"⟩, ⟨5, "e"⟩]]) "" ""
            .forward 4 1 ⟨0, 0, 0⟩ [],
           LokiResponse.mk "success"
            (LokiData.mk "streams"
              [logproto.Stream.mk "{job=a}" [⟨2, "b"⟩, ⟨4, "d"⟩, ⟨6, "f"⟩]]) "" ""
            .forward 4 1 ⟨0, 0, 0⟩ []]).map
        (fun m => totalEntries m.data.result) = some 4 := by
  constructor
  · decide
  · have h := mergeLokiResponse_limit_enforcement
      (LokiResponse.mk "success"
        (LokiData.mk "streams"
          [logproto.Stream.mk "{job=a}" [⟨1, "a"⟩, ⟨3, "c"⟩, ⟨5, "e"⟩]]) "" ""
        .forward 4 1 ⟨0, 0, 0⟩ [])
      [LokiResponse.mk "success"
        (LokiData.mk "streams"
          [logproto.Stream.mk "{job=a}" [⟨2, "b"⟩, ⟨4, "d"⟩, ⟨6, "f"⟩]]) "" ""
        .forward 4 1 ⟨0, 0, 0⟩ []]
      _ rfl
    rw [mergeLokiResponse]
    rw [Option.map_some']
    rw [h.2]
    decide

/-- C7: the streams of every merged LogResponse are ordered by label-set
key, strictly ascending for FORWARD and strictly descending for BACKWARD
(the merge runs under the first response's direction). -/
theorem mergeLokiResponse_key_order (r : LokiResponse) (rs : List LokiResponse)
    (m : LokiResponse) (h : mergeLokiResponse (r :: rs) = some m) :
    (m.data.result.map (fun s => s.labels)).Pairwise
      (fun a b => keyLt r.direction a b = true) := by
  rw [mergeLokiResponse] at h
  have hm := (Option.some.inj h).symm
  subst hm
  exact mergeOrdered_labels_pairwise _ _ _

/-- Witness for C7: a concrete BACKWARD merge of a two-stream response
emits keys in strictly descending order. -/
theorem mergeLokiResponse_key_order_witness :
    mergeLokiResponse
        [LokiResponse.mk "success"
          (LokiData.mk "streams"
            [logproto.Stream.mk "b" [⟨3, "x"⟩], logproto.Stream.mk "a" [⟨4, "y"⟩]]) "" ""
          .backward 100 1 ⟨0, 0, 0⟩ []] =
      some (LokiResponse.mk "success"
        (LokiData.mk "streams"
          [logproto.Stream.mk "b" [⟨3, "x"⟩], logproto.Stream.mk "a" [⟨4, "y"⟩]]) "" ""
        .backward 100 1 ⟨0, 0, 0⟩ []) ∧
      (((LokiResponse.mk "success"
          (LokiData.mk "streams"
            [logproto.Stream.mk "b" [⟨3, "x"⟩], logproto.Stream.mk "a" [⟨4, "y"⟩]]) "" ""
          .backward 100 1 ⟨0, 0, 0⟩ []).data.result.map (fun s => s.labels)).Pairwise
        (fun a b => keyLt .backward a b = true)) :=
  ⟨rfl,
    mergeLokiResponse_key_order
      (LokiResponse.mk "success"
        (LokiData.mk "streams"
          [logproto.Stream.mk "b" [⟨3, "x"⟩], logproto.Stream.mk "a" [⟨4, "y"⟩]]) "" ""
        .backward 100 1 ⟨0, 0, 0⟩ []) []
      (LokiResponse.mk "success"
        (LokiData.mk "streams"
          [logproto.Stream.mk "b" [⟨3, "x"⟩], logproto.Stream.mk "a" [⟨4, "y"⟩]]) "" ""
        .backward 100 1 ⟨0, 0, 0⟩ []) rfl⟩

/-- C9: merging an empty list of responses fails with the empty-input
error; no response value is produced. -/
theorem mergeResponse_empty_input :
    mergeResponse [] = .error "merging responses requires at least one response" := rfl

/-- C10: every merged LogResponse has status forced to "success", takes
direction, limit, version, error type and error text from the first input
response, and carries no headers. -/
theorem mergeLokiResponse_header_fields (r : LokiResponse) (rs : List LokiResponse)
    (m : LokiResponse) (h : mergeLokiResponse (r :: rs) = some m) :
    m.status = "success" ∧ m.direction = r.direction ∧ m.limit = r.limit ∧
      m.version = r.version ∧ m.errorType = r.errorType ∧ m.error = r.error ∧
      m.headers = [] := by
  rw [mergeLokiResponse] at h
  have hm := (Option.some.inj h).symm
  subst hm
  exact ⟨rfl, rfl, rfl, rfl, rfl, rfl, rfl⟩

/-- Witness for C10: merging a concrete error-status BACKWARD response
yields success status, the input's direction/limit/version/error fields,
and no headers. -/
theorem mergeLokiResponse_header_fields_witness :
    mergeLokiResponse
        [LokiResponse.mk "error" (LokiData.mk "streams" []) "timeout" "too slow"
          .backward 7 1 ⟨1, 2, 3⟩ [⟨"X-H", ["v"]⟩]] =
      some (LokiResponse.mk "success" (LokiData.mk "streams" []) "timeout" "too slow"
        .backward 7 1 ⟨1, 2, 3⟩ []) ∧
      ((LokiResponse.mk "success" (LokiData.mk "streams" []) "timeout" "too slow"
          .backward 7 1 ⟨1, 2, 3⟩ []).status = "success" ∧
        (LokiResponse.mk "success" (LokiData.mk "streams" []) "timeout" "too slow"
          .backward 7 1 ⟨1, 2, 3⟩ []).direction =
          (LokiResponse.mk "error" (LokiData.mk "streams" []) "timeout" "too slow"
            .backward 7 1 ⟨1, 2, 3⟩ [⟨"X-H", ["v"]⟩]).direction ∧
        (LokiResponse.mk "success" (LokiData.mk "streams" []) "timeout" "too slow"
          .backward 7 1 ⟨1, 2, 3⟩ []).limit =
          (LokiResponse.mk "error" (LokiData.mk "streams" []) "timeout" "too slow"
            .backward 7 1 ⟨1, 2, 3⟩ [⟨"X-H", ["v"]⟩]).limit ∧
        (LokiResponse.mk "success" (LokiData.mk "streams" []) "timeout" "too slow"
          .backward 7 1 ⟨1, 2, 3⟩ []).version =
          (LokiResponse.mk "error" (LokiData.mk "streams" []) "timeout" "too slow"
            .backward 7 1 ⟨1, 2, 3⟩ [⟨"X-H", ["v"]⟩]).version ∧
        (LokiResponse.mk "success" (LokiData.mk "streams" []) "timeout" "too slow"
          .backward 7 1 ⟨1, 2, 3⟩ []).errorType =
          (LokiResponse.mk "error" (LokiData.mk "streams" []) "timeout" "too slow"
            .backward 7 1 ⟨1, 2, 3⟩ [⟨"X-H", ["v"]⟩]).errorType ∧
        (LokiResponse.mk "success" (LokiData.mk "streams" []) "timeout" "too slow"
          .backward 7 1 ⟨1, 2, 3⟩ []).error =
          (LokiResponse.mk "error" (LokiData.mk "streams" []) "timeout" "too slow"
            .backward 7 1 ⟨1, 2, 3⟩ [⟨"X-H", ["v"]⟩]).error ∧
        (LokiResponse.mk "success" (LokiData.mk "streams" []) "timeout" "too slow"
          .backward 7 1 ⟨1, 2, 3⟩ []).headers = []) :=
  ⟨rfl,
    mergeLokiResponse_header_fields
      (LokiResponse.mk "error" (LokiData.mk "streams" []) "timeout" "too slow"
        .backward 7 1 ⟨1, 2, 3⟩ [⟨"X-H", ["v"]⟩]) []
      (LokiResponse.mk "success" (LokiData.mk "streams" []) "timeout" "too slow"
        .backward 7 1 ⟨1, 2, 3⟩ []) rfl⟩

/-- C2: for every Request Variant (range, instant, series, label,
index-stats, volume) whose wire-representable side conditions hold,
decoding the transport request produced by encoding it yields a request of
the same kind with the same semantically meaningful fields — query text,
time bounds, limit, direction, shards (and matchers); path and parameter
formatting normalize without losing these fields. -/
theorem decodeRequest_encodeRequest_roundtrip (ctx : Ctx) (r : Request)
    (hctx : ctx.orgID.isSome = true) (hsafe : roundTripSafe r) :
    ∃ r' : Request, (encodeRequest ctx r).bind decodeRequest = .ok r' ∧
      r'.kind = r.kind ∧ r'.semFields = r.semFields := by
  obtain ⟨org, horg⟩ : ∃ o, ctx.orgID = some o := by
    cases ho : ctx.orgID with
    | none => rw [ho] at hctx; simp at hctx
    | some o => exact ⟨o, rfl⟩
  cases r with
  | range request =>
    exact ⟨_, decodeRequest_encode_range ctx org request horg, rfl, rfl⟩
  | instant request =>
    exact ⟨_, decodeRequest_encode_instant ctx org request horg, rfl, rfl⟩
  | series request =>
    exact ⟨_, decodeRequest_encode_series ctx org request horg, rfl, rfl⟩
  | label request =>
    exact ⟨_, decodeRequest_encode_label ctx org request horg hsafe, rfl, rfl⟩
  | indexStats request =>
    exact ⟨_, decodeRequest_encode_indexStats ctx org request horg, rfl, rfl⟩
  | volume request =>
    exact ⟨_, decodeRequest_encode_volume ctx org request horg hsafe.1 hsafe.2, rfl, rfl⟩

/-- Witness for C2: a concrete sharded BACKWARD range request round-trips
through encode/decode with its semantic fields intact. -/
theorem decodeRequest_encodeRequest_roundtrip_witness :
    (Ctx.mk (some "tenant1") "tag" "" "actor" none).orgID.isSome = true ∧
      roundTripSafe (.range (LokiRequest.mk "{app=x} err" 25 5000 0
        1000000000 9000000000 .backward "/api/prom/query_range" ["0_of_2", "1_of_2"])) ∧
      ∃ r', (encodeRequest (Ctx.mk (some "tenant1") "tag" "" "actor" none)
          (.range (LokiRequest.mk "{app=x} err" 25 5000 0
            1000000000 9000000000 .backward "/api/prom/query_range"
            ["0_of_2", "1_of_2"]))).bind decodeRequest = .ok r' ∧
        r'.kind = ReqKind.range ∧
        r'.semFields = SemFields.mk "{app=x} err" 1000000000 9000000000 25
          (some .backward) ["0_of_2", "1_of_2"] [] :=
  ⟨rfl, trivial,
    decodeRequest_encodeRequest_roundtrip (Ctx.mk (some "tenant1") "tag" "" "actor" none)
      (.range (LokiRequest.mk "{app=x} err" 25 5000 0
        1000000000 9000000000 .backward "/api/prom/query_range" ["0_of_2", "1_of_2"]))
      rfl trivial⟩

/-- C5 counterexample: the claim says both decode paths answer NotFound on
an unknown path, but the RPC-wrapped decode of `/foo` answers BadRequest
(400), not NotFound (404). -/
theorem decodeHTTPGrpcRequest_unknown_is_400 :
    decodeHTTPGrpcRequest (Ctx.mk (some "tenant1") "" "" "" none)
        (HTTPGrpcRequest.mk "/foo" [] []) =
      .error (HTTPError.mk 400 "unknown request path: /foo") ∧
      (400 : Nat) ≠ 404 := ⟨rfl, by decide⟩

/-- C5 (amended): for every transport request whose URL path matches no
route, the plain HTTP decode fails with NotFound (404), while the
RPC-wrapped HTTP decode (given a resolvable org id) fails with BadRequest
(400); neither produces a request. -/
theorem decode_unknown_path (tr : TransportRequest) (ctx : Ctx) (g : HTTPGrpcRequest)
    (o : String) (h₁ : getOperation tr.path = .unknownOp)
    (h₂ : getOperation g.url = .unknownOp) (hctx : ctx.orgID = some o) :
    decodeRequest tr = .error (HTTPError.mk 404 ("unknown request path: " ++ tr.path)) ∧
      decodeHTTPGrpcRequest ctx g =
        .error (HTTPError.mk 400 ("unknown request path: " ++ g.url)) := by
  constructor
  · rw [decodeRequest, h₁]
  · rw [decodeHTTPGrpcRequest]
    simp only [hctx, h₂]

/-- Witness for C5 (amended): the unknown path `/foo` is rejected with 404
by the plain decode and 400 by the RPC-wrapped decode. -/
theorem decode_unknown_path_witness :
    getOperation "/foo" = .unknownOp ∧
      decodeRequest (TransportRequest.mk "/foo" [] []) =
        .error (HTTPError.mk 404 "unknown request path: /foo") ∧
      decodeHTTPGrpcRequest (Ctx.mk (some "t") "" "" "" none)
          (HTTPGrpcRequest.mk "/foo" [] []) =
        .error (HTTPError.mk 400 "unknown request path: /foo") := by
  refine ⟨by decide, ?_⟩
  have h := decode_unknown_path (TransportRequest.mk "/foo" [] [])
    (Ctx.mk (some "t") "" "" "" none) (HTTPGrpcRequest.mk "/foo" [] []) "t"
    (by decide) (by decide) rfl
  exact h

/-- C6: merging non-empty SeriesResponses keeps each distinct series
(identified by its canonicalized label-pair key) exactly once, the first
occurrence winning and insertion order preserved — the merged data is
exactly the first-occurrence dedup of the concatenated inputs, every
survivor is the first input series carrying its key, the merged keys are
duplicate-free, survivors keep the input order (a sublist of the
concatenated inputs), every input series is represented, and in
particular a series present in every input appears exactly once. -/
theorem mergeResponse_series_dedup (p : LokiSeriesResponse)
    (ps : List LokiSeriesResponse) (m : LokiSeriesResponse)
    (h : mergeResponse ((p :: ps).map Response.series) = .ok (.series m)) :
    m.data = dedupSeries [] (((p :: ps).map (fun q => q.data)).flatten) ∧
      (∀ t ∈ m.data,
        (((p :: ps).map (fun q => q.data)).flatten).find?
          (fun s => s.hashKey == t.hashKey) = some t) ∧
      (m.data.map SeriesIdentifier.hashKey).Nodup ∧
      m.data.Sublist (((p :: ps).map (fun q => q.data)).flatten) ∧
      (∀ s ∈ ((p :: ps).map (fun q => q.data)).flatten,
        ∃ t ∈ m.data, t.hashKey = s.hashKey) ∧
      ∀ K, (∀ q ∈ p :: ps, ∃ s ∈ q.data, s.hashKey = K) →
        m.data.countP (fun s => s.hashKey == K) = 1 := by
  have hmr : mergeResponse ((p :: ps).map Response.series) = .ok (.series
      { status := p.status
        version := p.version
        data := dedupSeries [] (((p :: ps).map (fun q => q.data)).flatten)
        statistics := statsSum ((p :: ps).map (fun q => q.statistics))
        headers := [] }) := by
    rw [List.map_cons, mergeResponse, ← List.map_cons, castSeries_map]
    rfl
  rw [hmr] at h
  have hm := Response.series.inj (Except.ok.inj h)
  have hdata : m.data = dedupSeries [] (((p :: ps).map (fun q => q.data)).flatten) := by
    rw [← hm]
  rw [hdata]
  refine ⟨rfl, fun t ht => dedupSeries_find? [] _ t ht,
    (dedupSeries_keys [] _).1, dedupSeries_sublist [] _, ?_, ?_⟩
  · intro s hs
    have hcount := dedupSeries_countP s.hashKey
      (((p :: ps).map (fun q => q.data)).flatten) []
    rw [if_neg (List.not_mem_nil _), if_pos ⟨s, hs, rfl⟩] at hcount
    have hpos : 0 < (dedupSeries []
        (((p :: ps).map (fun q => q.data)).flatten)).countP
          (fun t => t.hashKey == s.hashKey) := by
      rw [hcount]
      norm_num
    obtain ⟨t, ht, hp⟩ := List.countP_pos_iff.mp hpos
    exact ⟨t, ht, by simpa using hp⟩
  · intro K hall
    obtain ⟨s, hs, hkey⟩ := hall p (by simp)
    have hmem : s ∈ ((p :: ps).map (fun q => q.data)).flatten :=
      List.mem_flatten.mpr ⟨p.data, by simp, hs⟩
    have hcount := dedupSeries_countP K (((p :: ps).map (fun q => q.data)).flatten) []
    rw [if_neg (List.not_mem_nil _), if_pos ⟨s, hmem, hkey⟩] at hcount
    exact hcount

/-- Witness for C6: merging the spec's concrete scenario —
`[{env=prod}]` with `[{env=prod},{env=dev}]` — yields exactly the
first-occurrence dedup `[{env=prod},{env=dev}]`, with duplicate-free keys
and `{env=prod}` kept once. -/
theorem mergeResponse_series_dedup_witness :
    (LokiSeriesResponse.mk "success"
        [SeriesIdentifier.mk [("env", "prod")], SeriesIdentifier.mk [("env", "dev")]] 1
        ⟨0, 0, 0⟩ []).data =
      dedupSeries []
        ((([LokiSeriesResponse.mk "success" [SeriesIdentifier.mk [("env", "prod")]] 1
              ⟨0, 0, 0⟩ [],
            LokiSeriesResponse.mk "success"
              [SeriesIdentifier.mk [("env", "prod")], SeriesIdentifier.mk [("env", "dev")]] 1
              ⟨0, 0, 0⟩ []]).map (fun q => q.data)).flatten) ∧
      (([SeriesIdentifier.mk [("env", "prod")], SeriesIdentifier.mk [("env", "dev")]].map
        SeriesIdentifier.hashKey).Nodup) ∧
      ([SeriesIdentifier.mk [("env", "prod")],
        SeriesIdentifier.mk [("env", "dev")]].countP
          (fun s => s.hashKey == (SeriesIdentifier.mk [("env", "prod")]).hashKey)) = 1 := by
  have h := mergeResponse_series_dedup
    (LokiSeriesResponse.mk "success" [SeriesIdentifier.mk [("env", "prod")]] 1 ⟨0, 0, 0⟩ [])
    [LokiSeriesResponse.mk "success"
      [SeriesIdentifier.mk [("env", "prod")], SeriesIdentifier.mk [("env", "dev")]] 1
      ⟨0, 0, 0⟩ []]
    (LokiSeriesResponse.mk "success"
      [SeriesIdentifier.mk [("env", "prod")], SeriesIdentifier.mk [("env", "dev")]] 1
      ⟨0, 0, 0⟩ [])
    rfl
  refine ⟨h.1, h.2.2.1, ?_⟩
  refine h.2.2.2.2.2 (SeriesIdentifier.mk [("env", "prod")]).hashKey ?_
  intro q hq
  rcases List.mem_cons.mp hq with rfl | hq'
  · exact ⟨SeriesIdentifier.mk [("env", "prod")], by simp, rfl⟩
  · rcases List.mem_cons.mp hq' with rfl | hq''
    · exact ⟨SeriesIdentifier.mk [("env", "prod")], by simp, rfl⟩
    · simp at hq''

theorem filterMap_statsOf_prom (ps : List LokiPromResponse) :
    (ps.map Response.prom).filterMap statsOf = ps.map (fun p => p.statistics) := by
  induction ps with
  | nil => rfl
  | cons p rest ih => simp [statsOf, ih]

theorem filterMap_statsOf_log (ps : List LokiResponse) :
    (ps.map Response.log).filterMap statsOf = ps.map (fun p => p.statistics) := by
  induction ps with
  | nil => rfl
  | cons p rest ih => simp [statsOf, ih]

theorem filterMap_statsOf_series (ps : List LokiSeriesResponse) :
    (ps.map Response.series).filterMap statsOf = ps.map (fun p => p.statistics) := by
  induction ps with
  | nil => rfl
  | cons p rest ih => simp [statsOf, ih]

theorem filterMap_statsOf_labels (ps : List LokiLabelNamesResponse) :
    (ps.map Response.labels).filterMap statsOf = ps.map (fun p => p.statistics) := by
  induction ps with
  | nil => rfl
  | cons p rest ih => simp [statsOf, ih]

/-- C8: for every non-empty homogeneous merge whose kind carries a
statistics record (Prom, Log, Series, LabelNames), the merged response's
statistics equal the field-wise (`MergeSplit`) sum of every input's
statistics. -/
theorem mergeResponse_stats_additive (r : Response) (rs : List Response) (m : Response)
    (h : mergeResponse (r :: rs) = .ok m) (s₀ : StatsResult) (hs : statsOf r = some s₀) :
    statsOf m = some (statsSum ((r :: rs).filterMap statsOf)) := by
  cases r with
  | prom p =>
    rw [mergeResponse] at h
    cases hc : castProm (Response.prom p :: rs) with
    | error e => rw [hc] at h; simp [Except.map] at h
    | ok ps =>
      rw [hc] at h
      simp only [Except.map, Except.ok.injEq] at h
      have hl := castProm_ok hc
      rw [hl, filterMap_statsOf_prom, ← h, statsOf]
  | log p =>
    rw [mergeResponse] at h
    cases hc : castLog (Response.log p :: rs) with
    | error e => rw [hc] at h; simp at h
    | ok ls =>
      rw [hc] at h
      have hl := castLog_ok hc
      cases ls with
      | nil => simp at hl
      | cons l ls' =>
        simp only [mergeLokiResponse, Except.ok.injEq] at h
        rw [hl, filterMap_statsOf_log, ← h, statsOf]
  | series p =>
    rw [mergeResponse] at h
    cases hc : castSeries (Response.series p :: rs) with
    | error e => rw [hc] at h; simp [Except.map] at h
    | ok ps =>
      rw [hc] at h
      simp only [Except.map, Except.ok.injEq] at h
      have hl := castSeries_ok hc
      rw [hl, filterMap_statsOf_series, ← h, statsOf]
  | labels p =>
    rw [mergeResponse] at h
    cases hc : castLabels (Response.labels p :: rs) with
    | error e => rw [hc] at h; simp [Except.map] at h
    | ok ps =>
      rw [hc] at h
      simp only [Except.map, Except.ok.injEq] at h
      have hl := castLabels_ok hc
      rw [hl, filterMap_statsOf_labels, ← h, statsOf]
  | indexStats p => simp [statsOf] at hs
  | volume p => simp [statsOf] at hs

/-- Witness for C8: merging two concrete label-names responses sums their
statistics field-wise. -/
theorem mergeResponse_stats_additive_witness :
    statsOf (Response.labels (LokiLabelNamesResponse.mk "success" ["a"] 1 ⟨1, 2, 3⟩ []))
        = some ⟨1, 2, 3⟩ ∧
      mergeResponse
          [Response.labels (LokiLabelNamesResponse.mk "success" ["a"] 1 ⟨1, 2, 3⟩ []),
           Response.labels (LokiLabelNamesResponse.mk "success" ["b"] 1 ⟨10, 20, 30⟩ [])] =
        .ok (.labels (LokiLabelNamesResponse.mk "success" ["a", "b"] 1 ⟨11, 22, 33⟩ [])) ∧
      statsOf (.labels (LokiLabelNamesResponse.mk "success" ["a", "b"] 1 ⟨11, 22, 33⟩ [])) =
        some (statsSum
          ([Response.labels (LokiLabelNamesResponse.mk "success" ["a"] 1 ⟨1, 2, 3⟩ []),
            Response.labels
              (LokiLabelNamesResponse.mk "success" ["b"] 1 ⟨10, 20, 30⟩ [])].filterMap
            statsOf)) :=
  ⟨rfl, rfl,
    mergeResponse_stats_additive
      (Response.labels (LokiLabelNamesResponse.mk "success" ["a"] 1 ⟨1, 2, 3⟩ []))
      [Response.labels (LokiLabelNamesResponse.mk "success" ["b"] 1 ⟨10, 20, 30⟩ [])]
      (.labels (LokiLabelNamesResponse.mk "success" ["a", "b"] 1 ⟨11, 22, 33⟩ []))
      rfl ⟨1, 2, 3⟩ rfl⟩

/-- C3 counterexample: two single-entry FORWARD responses with the same
direction and limit 1 — the early-stop optimization keeps only the first
input's entry, so `[A, B]` and `[B, A]` merge to different final entries
for the same label-set. -/
theorem mergeLokiResponse_comm_counterexample :
    (mergeLokiResponse
        [LokiResponse.mk "success" (LokiData.mk "streams"
            [logproto.Stream.mk "a" [⟨1, "x"⟩]]) "" "" .forward 1 1 ⟨0, 0, 0⟩ [],
         LokiResponse.mk "success" (LokiData.mk "streams"
            [logproto.Stream.mk "a" [⟨2, "y"⟩]]) "" "" .forward 1 1 ⟨0, 0, 0⟩ []]).map
      (fun m => m.data.result) = some [logproto.Stream.mk "a" [⟨1, "x"⟩]] ∧
    (mergeLokiResponse
        [LokiResponse.mk "success" (LokiData.mk "streams"
            [logproto.Stream.mk "a" [⟨2, "y"⟩]]) "" "" .forward 1 1 ⟨0, 0, 0⟩ [],
         LokiResponse.mk "success" (LokiData.mk "streams"
            [logproto.Stream.mk "a" [⟨1, "x"⟩]]) "" "" .forward 1 1 ⟨0, 0, 0⟩ []]).map
      (fun m => m.data.result) = some [logproto.Stream.mk "a" [⟨2, "y"⟩]] ∧
    (some [logproto.Stream.mk "a" [⟨1, "x"⟩]] : Option (List Stream)) ≠
      some [logproto.Stream.mk "a" [⟨2, "y"⟩]] := by
  refine ⟨by decide, by decide, by decide⟩

theorem totalEntries_flatten_pair (X Y : LokiResponse) :
    totalEntries ((([X, Y]).map (fun r => r.data.result)).flatten) =
      X.Count + Y.Count := by
  simp only [List.map_cons, List.map_nil, List.flatten_cons, List.flatten_nil,
    List.append_nil, totalEntries_append, totalEntries_eq_count]

/-- C3 (amended): merging `[A, B]` and `[B, A]` (same direction and limit)
always yields the same total entry count, and the output stream order is
always by label-set key under the direction; when the combined entry count
is below the limit — so the early-stop optimization never discards an
input — the merged stream lists are identical (same final entries per
label-set). When the limit cuts in, the early stop can drop later inputs
and the surviving entries may depend on the input order. -/
theorem mergeLokiResponse_comm (A B : LokiResponse) (hdir : A.direction = B.direction)
    (hlim : A.limit = B.limit) :
    ((mergeLokiResponse [A, B]).map (fun m => totalEntries m.data.result) =
      (mergeLokiResponse [B, A]).map (fun m => totalEntries m.data.result)) ∧
    (A.Count + B.Count < A.limit →
      (mergeLokiResponse [A, B]).map (fun m => m.data.result) =
        (mergeLokiResponse [B, A]).map (fun m => m.data.result)) ∧
    (∀ m, mergeLokiResponse [A, B] = some m →
      (m.data.result.map (fun s => s.labels)).Pairwise
        (fun a b => keyLt A.direction a b = true)) := by
  refine ⟨?_, ?_, ?_⟩
  · simp only [mergeLokiResponse, Option.map_some']
    rw [mergeOrdered_totalEntries, mergeOrdered_totalEntries, hlim]
    congr 1
    simp only [List.map_cons, List.map_nil, List.sum_cons, List.sum_nil]
    omega
  · intro hlt
    have hsumAB : 0 + (([A, B]).map LokiResponse.Count).sum < A.limit := by
      simp only [List.map_cons, List.map_nil, List.sum_cons, List.sum_nil]
      omega
    have hsumBA : 0 + (([B, A]).map LokiResponse.Count).sum < B.limit := by
      simp only [List.map_cons, List.map_nil, List.sum_cons, List.sum_nil]
      omega
    have hcolAB := collectStreams_all A.limit [A, B] 0 hsumAB
    have hcolBA := collectStreams_all B.limit [B, A] 0 hsumBA
    have hperm : ((([A, B]).map (fun r => r.data.result)).flatten).Perm
        ((([B, A]).map (fun r => r.data.result)).flatten) := by
      refine List.Perm.flatten (List.Perm.map _ ?_)
      exact List.Perm.swap B A []
    have htotAB : totalEntries (collectStreams A.limit 0 [A, B]) ≤ A.limit := by
      rw [hcolAB, totalEntries_flatten_pair]
      omega
    have htotBA : totalEntries (collectStreams B.limit 0 [B, A]) ≤ B.limit := by
      rw [hcolBA, totalEntries_flatten_pair]
      omega
    simp only [mergeLokiResponse, Option.map_some']
    rw [mergeOrdered_eq_escape htotAB, mergeOrdered_eq_escape htotBA, hcolAB, hcolBA,
      ← hdir, sortedKeys_congr_perm A.direction hperm]
    congr 1
    apply List.map_congr_left
    intro k hk
    rw [byDirMerge_congr_perm A.direction (groupMarkers_congr_perm hperm k)]
  · intro m h
    rw [mergeLokiResponse] at h
    have hm := (Option.some.inj h).symm
    subst hm
    exact mergeOrdered_labels_pairwise _ _ _

/-- Witness for C3 (amended): two concrete FORWARD responses with distinct
labels and a large limit merge identically in both orders, with the same
total count and key-sorted output. -/
theorem mergeLokiResponse_comm_witness :
    (LokiResponse.mk "success" (LokiData.mk "streams"
        [logproto.Stream.mk "b" [⟨1, "x"⟩]]) "" "" .forward 10 1 ⟨0, 0, 0⟩ []).direction =
      (LokiResponse.mk "success" (LokiData.mk "streams"
        [logproto.Stream.mk "a" [⟨2, "y"⟩]]) "" "" .forward 10 1 ⟨0, 0, 0⟩ []).direction ∧
    (LokiResponse.mk "success" (LokiData.mk "streams"
        [logproto.Stream.mk "b" [⟨1, "x"⟩]]) "" "" .forward 10 1 ⟨0, 0, 0⟩ []).limit =
      (LokiResponse.mk "success" (LokiData.mk "streams"
        [logproto.Stream.mk "a" [⟨2, "y"⟩]]) "" "" .forward 10 1 ⟨0, 0, 0⟩ []).limit ∧
    ((mergeLokiResponse
        [LokiResponse.mk "success" (LokiData.mk "streams"
            [logproto.Stream.mk "b" [⟨1, "x"⟩]]) "" "" .forward 10 1 ⟨0, 0, 0⟩ [],
         LokiResponse.mk "success" (LokiData.mk "streams"
            [logproto.Stream.mk "a" [⟨2, "y"⟩]]) "" "" .forward 10 1 ⟨0, 0, 0⟩ []]).map
        (fun m => m.data.result) =
      (mergeLokiResponse
        [LokiResponse.mk "success" (LokiData.mk "streams"
            [logproto.Stream.mk "a" [⟨2, "y"⟩]]) "" "" .forward 10 1 ⟨0, 0, 0⟩ [],
         LokiResponse.mk "success" (LokiData.mk "streams"
            [logproto.Stream.mk "b" [⟨1, "x"⟩]]) "" "" .forward 10 1 ⟨0, 0, 0⟩ []]).map
        (fun m => m.data.result)) := by
  refine ⟨rfl, rfl, ?_⟩
  exact (mergeLokiResponse_comm
    (LokiResponse.mk "success" (LokiData.mk "streams"
        [logproto.Stream.mk "b" [⟨1, "x"⟩]]) "" "" .forward 10 1 ⟨0, 0, 0⟩ [])
    (LokiResponse.mk "success" (LokiData.mk "streams"
        [logproto.Stream.mk "a" [⟨2, "y"⟩]]) "" "" .forward 10 1 ⟨0, 0, 0⟩ [])
    rfl rfl).2.1 (by decide)

theorem strLt_asymm' {a b : String} (h : strLt a b = true) : strLt b a = false :=
  lexLt_asymm _ _ h

theorem keyLt_ne {d : Direction} {a b : String} (h : keyLt d a b = true) : a ≠ b := by
  rintro rfl
  cases d <;> simp only [keyLt, strLt, lexLt_irrefl] at h <;>
    exact Bool.false_ne_true h

theorem keyRel_of_keyLt {d : Direction} {a b : String} (h : keyLt d a b = true) :
    keyRel d a b := by
  cases d <;>
    simp only [keyLt, keyRel, keyLe, strLe] at h ⊢ <;>
    simp [strLt_asymm' h]

/-- C4 counterexample: merging the one-element list `[r]` is not the
identity — a LogResponse with status "error" comes back with status
"success", so `Merge([r]) ≠ r`. -/
theorem mergeResponse_singleton_counterexample :
    mergeResponse [Response.log (LokiResponse.mk "error" (LokiData.mk "streams" [])
        "" "" .forward 5 1 ⟨0, 0, 0⟩ [])] =
      .ok (.log (LokiResponse.mk "success" (LokiData.mk "streams" [])
        "" "" .forward 5 1 ⟨0, 0, 0⟩ [])) ∧
      LokiResponse.mk "success" (LokiData.mk "streams" []) "" "" .forward 5 1
          ⟨0, 0, 0⟩ [] ≠
        LokiResponse.mk "error" (LokiData.mk "streams" []) "" "" .forward 5 1
          ⟨0, 0, 0⟩ [] :=
  ⟨rfl, by decide⟩

/-- C4 (amended): `Merge([r]) = r` holds exactly for responses already in
merged canonical form; for a LogResponse that means status "success", no
headers, the streams result type, stream labels strictly sorted by the
response's direction, entries of each stream sorted by the direction's
time order, and a total entry count within the limit. In general the
single-element merge normalizes (status forced, headers dropped, streams
regrouped/sorted, entries truncated), so it is not the identity for every
response. -/
theorem mergeResponse_singleton_canonical (r : LokiResponse)
    (hstatus : r.status = "success") (hheaders : r.headers = [])
    (hrt : r.data.resultType = "streams")
    (hsorted : (r.data.result.map (fun s => s.labels)).Pairwise
      (fun a b => keyLt r.direction a b = true))
    (hentries : ∀ s ∈ r.data.result, List.Sorted (entryRel r.direction) s.entries)
    (hcount : r.Count ≤ r.limit) :
    mergeResponse [.log r] = .ok (.log r) := by
  have hmerge : mergeLokiResponse [r] = some r := by
    obtain ⟨status, data, errorType, error, direction, limit, version, statistics,
      headers⟩ := r
    obtain ⟨resultType, result⟩ := data
    simp only at hstatus hheaders hrt hsorted hentries hcount
    subst hstatus hheaders hrt
    rw [mergeLokiResponse]
    dsimp only [List.map_cons, List.map_nil]
    have hnodup : (result.map (fun s => s.labels)).Nodup := hsorted.imp keyLt_ne
    have hcol : collectStreams limit 0
        [LokiResponse.mk "success" (LokiData.mk "streams" result) errorType error
          direction limit version statistics []] = result :=
      collectStreams_singleton limit 0 _
    have hesc : totalEntries (collectStreams limit 0
        [LokiResponse.mk "success" (LokiData.mk "streams" result) errorType error
          direction limit version statistics []]) ≤ limit := by
      rw [hcol]
      exact hcount
    rw [mergeOrdered_eq_escape hesc, hcol]
    rw [sortedKeys, groupKeys, List.dedup_eq_self.mpr hnodup,
      List.Sorted.insertionSort_eq (hsorted.imp (fun h => keyRel_of_keyLt h)),
      map_groups_self direction result hnodup
        (fun s hs => (hentries s hs).insertionSort_eq)]
    rw [statsSum_singleton]
  rw [mergeResponse]
  simp only [castLog, Except.map, hmerge]

/-- Witness for C4 (amended): a concrete canonical single-stream FORWARD
response merges to itself. -/
theorem mergeResponse_singleton_canonical_witness :
    (LokiResponse.mk "success" (LokiData.mk "streams"
        [logproto.Stream.mk "a" [⟨1, "x"⟩, ⟨2, "y"⟩]]) "" "" .forward 5 1
        ⟨1, 2, 3⟩ []).Count ≤ 5 ∧
      mergeResponse [.log (LokiResponse.mk "success" (LokiData.mk "streams"
          [logproto.Stream.mk "a" [⟨1, "x"⟩, ⟨2, "y"⟩]]) "" "" .forward 5 1
          ⟨1, 2, 3⟩ [])] =
        .ok (.log (LokiResponse.mk "success" (LokiData.mk "streams"
          [logproto.Stream.mk "a" [⟨1, "x"⟩, ⟨2, "y"⟩]]) "" "" .forward 5 1
          ⟨1, 2, 3⟩ [])) := by
  constructor
  · decide
  · exact mergeResponse_singleton_canonical
      (LokiResponse.mk "success" (LokiData.mk "streams"
        [logproto.Stream.mk "a" [⟨1, "x"⟩, ⟨2, "y"⟩]]) "" "" .forward 5 1 ⟨1, 2, 3⟩ [])
      rfl rfl rfl (by decide) (by decide) (by decide)
